import Mathlib

/-!
Verification development for the `FetchMocker` request-interception and
route-matching engine (`src/fetchMockServer.js`).

The JavaScript source is shallowly embedded below.  JavaScript runtime
builtins used by the source (`URL`, `URLSearchParams`, `JSON.parse`,
`JSON.stringify`, `RegExp`, `Object.entries`, `Map`, string methods) are
modelled by executable Lean functions that are faithful on the fragment the
theorems exercise; every such fragment restriction is noted in the
corresponding doc comment.  Console logging is out of scope (the spec treats
log output as an external collaborator), so the model does not record log
lines.

Conventions:
* JS objects with string keys are insertion-ordered association lists
  `List (String × α)`; property assignment keeps the position of an existing
  key (`assocSet`), property read returns the first binding (`jsGet`).
* JS values that can flow through `JSON.parse`, route constraints and handler
  results are modelled by `JVal` (numbers restricted to integers; fractional
  and exponent literals are outside the modelled fragment).
* Code that can throw where the source does not catch is modelled with
  `Except String`.
-/

/-- Is `pre` a leading run of `l`?  (Equality on an initial segment.) -/
def charsLead : List Char → List Char → Bool
  | [], _ => true
  | _ :: _, [] => false
  | a :: as, b :: bs => a = b && charsLead as bs

/-- Model of JS `String.prototype.includes`: does `hay` contain `sub` as a
contiguous substring? -/
def charsIncl (sub : List Char) : List Char → Bool
  | [] => charsLead sub []
  | c :: t => charsLead sub (c :: t) || charsIncl sub t

/-- Model of `s.includes(sub)` for JS strings. -/
def strIncludes (s sub : String) : Bool :=
  charsIncl sub.data s.data

/-- Strip `pre` from the front of `cs`; `some rest` on success. -/
def stripLead : List Char → List Char → Option (List Char)
  | [], cs => some cs
  | _ :: _, [] => none
  | a :: as, b :: bs => if a = b then stripLead as bs else none

/-- Split a character list at every occurrence of `sep` (the separator is
dropped; empty segments are kept, mirroring JS `String.prototype.split`). -/
def charSplitOn (sep : Char) : List Char → List (List Char)
  | [] => [[]]
  | c :: cs =>
    if c = sep then [] :: charSplitOn sep cs
    else
      match charSplitOn sep cs with
      | [] => [[c]]
      | s :: rest => (c :: s) :: rest

/-- Split on `'/'`, as used to talk about path segments. -/
def charSplit (cs : List Char) : List (List Char) :=
  charSplitOn '/' cs

/-- Model of JS `s.split(sep)` for a single-character separator. -/
def jsSplit (s : String) (sep : Char) : List String :=
  (charSplitOn sep s.data).map String.mk

/-- JS object property read: first binding of the key (object keys are unique
by construction, so first = only). -/
def jsGet : List (String × α) → String → Option α
  | [], _ => none
  | (k₀, v₀) :: rest, k => if k₀ = k then some v₀ else jsGet rest k

/-- JS object property assignment: overwrite in place if the key exists
(keeping its position), otherwise append. -/
def assocSet : List (String × α) → String → α → List (String × α)
  | [], k, v => [(k, v)]
  | (k₀, v₀) :: rest, k, v =>
    if k₀ = k then (k₀, v) :: rest else (k₀, v₀) :: assocSet rest k v

/-- Model of `Object.fromEntries`: build an object from pairs in order, later
duplicates overwriting earlier ones. -/
def fromEntries (l : List (String × α)) : List (String × α) :=
  l.foldl (fun acc kv => assocSet acc kv.1 kv.2) []

/-- Does the association list have the key? -/
def assocHas (l : List (String × α)) (k : String) : Bool :=
  (jsGet l k).isSome

/-- ASCII lower-casing of a string, modelling `String.prototype.toLowerCase`
on the ASCII fragment (all strings the theorems exercise are ASCII). -/
def jsToLower (s : String) : String :=
  String.mk (s.data.map Char.toLower)

/-- ASCII upper-casing of a string, modelling `String.prototype.toUpperCase`
on the ASCII fragment. -/
def jsToUpper (s : String) : String :=
  String.mk (s.data.map Char.toUpper)

/-- Numeric value of a digit string (no sign). -/
def natOfDigits (ds : List Char) : Nat :=
  ds.foldl (fun n c => 10 * n + (c.toNat - 48)) 0

/-- The opening curly bracket character. -/
def lcurly : Char := Char.ofNat 123

/-- The closing curly bracket character. -/
def rcurly : Char := Char.ofNat 125

/-- Model of JS values as they appear in this program: decoded bodies, route
constraints and handler payloads.  Numbers are restricted to integers
(fractional/exponent JSON numbers are outside the modelled fragment). -/
inductive JVal where
  | jnull : JVal
  | jbool : Bool → JVal
  | jnum : Int → JVal
  | jstr : String → JVal
  | jarr : List JVal → JVal
  | jobj : List (String × JVal) → JVal

/-- JS strict equality `===` restricted to the values in this model:
structural on primitives; objects and arrays compare by reference, and since
the two sides always come from different allocations here (one from decoding
the request, one from the registered constraints), reference equality is
`false`. -/
def jsStrictEq : JVal → JVal → Bool
  | .jnull, .jnull => true
  | .jbool a, .jbool b => a = b
  | .jnum a, .jnum b => a = b
  | .jstr a, .jstr b => a = b
  | _, _ => false

/-- JS property access `v[key]`: defined lookup on objects; on primitives and
arrays it is modelled as `undefined` (numeric array indexing is outside the
modelled fragment and never exercised). -/
def jsIndex : JVal → String → Option JVal
  | .jobj l, k => jsGet l k
  | _, _ => none

/-- Whitespace skipping for the JSON reader. -/
def skipWs (cs : List Char) : List Char :=
  cs.dropWhile (fun c => c = ' ' ∨ c = '\t' ∨ c = '\n' ∨ c = '\r')

/-- Read a JSON string body (after the opening quote), accumulating
characters; supports the escapes `\" \\ \/ \n \t \r \b \f`.  `\u` escapes are
outside the modelled fragment (the reader fails on them). -/
def jpStrAux : List Char → List Char → Option (String × List Char)
  | [], _ => none
  | '"' :: r, acc => some (String.mk acc.reverse, r)
  | '\\' :: 'n' :: r, acc => jpStrAux r ('\n' :: acc)
  | '\\' :: 't' :: r, acc => jpStrAux r ('\t' :: acc)
  | '\\' :: 'r' :: r, acc => jpStrAux r ('\r' :: acc)
  | '\\' :: 'b' :: r, acc => jpStrAux r (Char.ofNat 8 :: acc)
  | '\\' :: 'f' :: r, acc => jpStrAux r (Char.ofNat 12 :: acc)
  | '\\' :: '"' :: r, acc => jpStrAux r ('"' :: acc)
  | '\\' :: '\\' :: r, acc => jpStrAux r ('\\' :: acc)
  | '\\' :: '/' :: r, acc => jpStrAux r ('/' :: acc)
  | '\\' :: _, _ => none
  | c :: r, acc => if c.toNat < 32 then none else jpStrAux r (c :: acc)

/-- Read a JSON integer literal (optional minus sign, no leading zeros);
fractional and exponent forms are outside the modelled fragment (the reader
fails on them, see the module comment). -/
def jpNumber (cs : List Char) : Option (Int × List Char) :=
  let signed := match cs with
    | '-' :: r => (true, r)
    | _ => (false, cs)
  let neg := signed.1
  let cs₁ := signed.2
  let ds := cs₁.takeWhile Char.isDigit
  let rest := cs₁.dropWhile Char.isDigit
  if ds = [] then none
  else if 1 < ds.length ∧ ds.headD '0' = '0' then none
  else
    match rest with
    | '.' :: _ => none
    | 'e' :: _ => none
    | 'E' :: _ => none
    | _ => some (if neg then -(natOfDigits ds : Int) else (natOfDigits ds : Int), rest)

mutual

/-- Fuel-indexed JSON value reader, modelling `JSON.parse` on the fragment
described in the module comment.  The fuel supplied by `jsonParse` is ample
for every input in that fragment. -/
def jpVal : Nat → List Char → Option (JVal × List Char)
  | 0, _ => none
  | Nat.succ fuel, cs =>
    match skipWs cs with
    | 'n' :: 'u' :: 'l' :: 'l' :: r => some (.jnull, r)
    | 't' :: 'r' :: 'u' :: 'e' :: r => some (.jbool true, r)
    | 'f' :: 'a' :: 'l' :: 's' :: 'e' :: r => some (.jbool false, r)
    | '"' :: r => (jpStrAux r []).map (fun p => (.jstr p.1, p.2))
    | '[' :: r =>
      (match skipWs r with
       | ']' :: r₁ => some (.jarr [], r₁)
       | _ => jpElems fuel r [])
    | c :: r =>
      if c = lcurly then
        match skipWs r with
        | d :: r₁ => if d = rcurly then some (.jobj [], r₁) else jpMembers fuel r []
        | [] => none
      else if c = '-' ∨ c.isDigit then
        (jpNumber (c :: r)).map (fun p => (.jnum p.1, p.2))
      else none
    | [] => none

/-- Array elements after the opening bracket (non-empty case). -/
def jpElems : Nat → List Char → List JVal → Option (JVal × List Char)
  | 0, _, _ => none
  | Nat.succ fuel, cs, acc =>
    match jpVal fuel cs with
    | none => none
    | some (v, r) =>
      match skipWs r with
      | ',' :: r₁ => jpElems fuel r₁ (v :: acc)
      | d :: r₁ => if d = ']' then some (.jarr (v :: acc).reverse, r₁) else none
      | [] => none

/-- Object members after the opening brace (non-empty case); duplicate keys
keep the last value, as `JSON.parse` does. -/
def jpMembers : Nat → List Char → List (String × JVal) → Option (JVal × List Char)
  | 0, _, _ => none
  | Nat.succ fuel, cs, acc =>
    match skipWs cs with
    | '"' :: r =>
      match jpStrAux r [] with
      | none => none
      | some (k, r₁) =>
        match skipWs r₁ with
        | ':' :: r₂ =>
          match jpVal fuel r₂ with
          | none => none
          | some (v, r₃) =>
            match skipWs r₃ with
            | ',' :: r₄ => jpMembers fuel r₄ ((k, v) :: acc)
            | d :: r₄ =>
              if d = rcurly then some (.jobj (fromEntries ((k, v) :: acc).reverse), r₄)
              else none
            | [] => none
        | _ => none
    | _ => none

end

/-- Model of `JSON.parse` (see `jpVal` for the modelled fragment); `none`
models a thrown `SyntaxError`. -/
def jsonParse (s : String) : Option JVal :=
  match jpVal (2 * s.data.length + 2) s.data with
  | some (v, r) => if skipWs r = [] then some v else none
  | none => none

/-- Escape the characters of a string for JSON output (quote, backslash and
the common control characters; other control characters are outside the
modelled fragment). -/
def jstrEscape (s : String) : String :=
  String.mk (s.data.foldr
    (fun c acc =>
      if c = '"' then '\\' :: '"' :: acc
      else if c = '\\' then '\\' :: '\\' :: acc
      else if c = '\n' then '\\' :: 'n' :: acc
      else if c = '\t' then '\\' :: 't' :: acc
      else if c = '\r' then '\\' :: 'r' :: acc
      else c :: acc)
    [])

mutual

/-- Model of `JSON.stringify` on `JVal`. -/
def jsonStringify : JVal → String
  | .jnull => "null"
  | .jbool true => "true"
  | .jbool false => "false"
  | .jnum n => toString n
  | .jstr s => "\"" ++ jstrEscape s ++ "\""
  | .jarr l => "[" ++ jsonStringifyList l ++ "]"
  | .jobj l => String.singleton lcurly ++ jsonStringifyMembers l ++ String.singleton rcurly

/-- Comma-separated serialization of array elements. -/
def jsonStringifyList : List JVal → String
  | [] => ""
  | [v] => jsonStringify v
  | v :: w :: r => jsonStringify v ++ "," ++ jsonStringifyList (w :: r)

/-- Comma-separated serialization of object members. -/
def jsonStringifyMembers : List (String × JVal) → String
  | [] => ""
  | [(k, v)] => "\"" ++ jstrEscape k ++ "\":" ++ jsonStringify v
  | (k, v) :: m :: r =>
    "\"" ++ jstrEscape k ++ "\":" ++ jsonStringify v ++ "," ++ jsonStringifyMembers (m :: r)

end

/-- Hex digit value. -/
def hexVal (c : Char) : Option Nat :=
  if '0' ≤ c ∧ c ≤ '9' then some (c.toNat - 48)
  else if 'a' ≤ c ∧ c ≤ 'f' then some (c.toNat - 87)
  else if 'A' ≤ c ∧ c ≤ 'F' then some (c.toNat - 55)
  else none

/-- Percent-decoding as performed by `URLSearchParams`: `+` becomes a space
and `%XX` becomes the byte `XX` (single-byte decoding; multi-byte UTF-8
sequences are outside the modelled fragment). -/
def pctDecode : List Char → List Char
  | [] => []
  | '+' :: r => ' ' :: pctDecode r
  | '%' :: a :: b :: r =>
    (match hexVal a, hexVal b with
     | some x, some y => Char.ofNat (16 * x + y) :: pctDecode r
     | _, _ => '%' :: pctDecode (a :: b :: r))
  | c :: r => c :: pctDecode r

/-- Decode a query string (without a leading question mark) into ordered
key/value pairs, as `URLSearchParams` enumerates them: split on ampersands,
drop empty chunks, split each chunk at its first equals sign, percent-decode
keys and values. -/
def parseQueryPairs (cs : List Char) : List (String × String) :=
  ((charSplitOn '&' cs).filter (· ≠ [])).map fun seg =>
    let k := seg.takeWhile (· ≠ '=')
    let v := (seg.dropWhile (· ≠ '=')).drop 1
    (String.mk (pctDecode k), String.mk (pctDecode v))

/-- The parts of a parsed URL that `routeRequest` reads. -/
structure URLParts where
  hostname : String
  pathname : String
  searchPairs : List (String × String)
deriving Repr, DecidableEq

/-- Model of the `new URL(url)` constructor on the fragment the program
exercises: an explicit `http://` or `https://` scheme, a non-empty authority
(optionally with userinfo before `@` and a port after `:`), then path, query
and fragment.  The hostname is ASCII-lowercased as the URL parser does.
`none` models the constructor throwing `TypeError: Invalid URL` (for example
on a string with no scheme).  IPv6 literals, percent-encoded hosts, other
schemes and WHATWG whitespace stripping are outside the modelled fragment. -/
def parseURL (url : String) : Option URLParts :=
  match
    (match stripLead "http://".data url.data with
     | some r => some r
     | none => stripLead "https://".data url.data) with
  | none => none
  | some rest =>
    let authority := rest.takeWhile (fun c => c ≠ '/' ∧ c ≠ '?' ∧ c ≠ '#')
    let afterAuth := rest.dropWhile (fun c => c ≠ '/' ∧ c ≠ '?' ∧ c ≠ '#')
    if authority = [] then none
    else
      let hostPort := (authority.reverse.takeWhile (· ≠ '@')).reverse
      let hostname := (hostPort.takeWhile (· ≠ ':')).map Char.toLower
      if hostname = [] then none
      else
        let noFrag := afterAuth.takeWhile (· ≠ '#')
        let pathChars := noFrag.takeWhile (· ≠ '?')
        let queryChars := (noFrag.dropWhile (· ≠ '?')).drop 1
        some ⟨String.mk hostname,
              (if pathChars = [] then "/" else String.mk pathChars),
              parseQueryPairs queryChars⟩

/-- Tokens of the anchored regular expression that `matchPath` builds from a
route path: a literal character, the `.` wildcard, or the capturing group
`([^/]+)` that replaced a `:name` parameter. -/
inductive RTok where
  | lit : Char → RTok
  | anyChar : RTok
  | group : RTok
deriving Repr, DecidableEq

/-- Regex metacharacters (other than `.`, which is modelled) whose appearance
in a route path puts the pattern outside the modelled fragment. -/
def regexMeta : List Char :=
  ['(', ')', '[', ']', lcurly, rcurly, '*', '+', '?', '^', '$', '|', '\\']

mutual

/-- Model of the pattern-compilation step of `matchPath`: the source replaces
every `:name` (a colon followed by a maximal non-empty run of non-slash
characters) by the group `([^/]+)` while collecting the parameter names, and
reads the result as an anchored regex.  A literal `.` in the pattern is the
regex wildcard (`RTok.anyChar`); a colon not followed by a non-slash
character stays a literal colon.  Patterns containing other regex
metacharacters are outside the modelled fragment (`none`): the source gives
them full JS regex semantics there, including a thrown `SyntaxError` for
invalid regexes. -/
def tokenizeAux : List Char → Option (List RTok × List String)
  | [] => some ([], [])
  | c :: cs =>
    if c = ':' then tokenizeName cs []
    else if c = '.' then
      match tokenizeAux cs with
      | none => none
      | some (ts, ns) => some (RTok.anyChar :: ts, ns)
    else if c ∈ regexMeta then none
    else
      match tokenizeAux cs with
      | none => none
      | some (ts, ns) => some (RTok.lit c :: ts, ns)

/-- Scanning the (maximal, possibly empty) run of non-slash characters after
a colon, accumulating the parameter name in reverse: a non-empty run becomes
a capturing group with that name, an empty run means the colon was a literal
colon. -/
def tokenizeName : List Char → List Char → Option (List RTok × List String)
  | [], acc =>
    if acc = [] then some ([RTok.lit ':'], [])
    else some ([RTok.group], [String.mk acc.reverse])
  | c :: cs, acc =>
    if c = '/' then
      match tokenizeAux cs with
      | none => none
      | some (ts, ns) =>
        if acc = [] then some (RTok.lit ':' :: RTok.lit '/' :: ts, ns)
        else some (RTok.group :: RTok.lit '/' :: ts, String.mk acc.reverse :: ns)
    else tokenizeName cs (c :: acc)

end

/-- Anchored matching of the token list against the whole character list,
returning the captured group values in order.  The group `([^/]+)` is greedy;
since a group token produced by `tokenizeAux` is always followed by a literal
`'/'` or the end of the pattern, greedy matching captures exactly the maximal
non-empty run of non-slash characters and no backtracking is observable, so
the model takes that run directly.  The `.` wildcard matches any character
except a line terminator. -/
def rmatch : List RTok → List Char → Option (List String)
  | [], [] => some []
  | [], _ :: _ => none
  | RTok.lit _ :: _, [] => none
  | RTok.lit c :: ts, d :: cs => if d = c then rmatch ts cs else none
  | RTok.anyChar :: _, [] => none
  | RTok.anyChar :: ts, d :: cs =>
    if d = '\n' ∨ d = '\r' ∨ d.toNat = 8232 ∨ d.toNat = 8233 then none else rmatch ts cs
  | RTok.group :: ts, cs =>
    if cs.takeWhile (· ≠ '/') = [] then none
    else
      match rmatch ts (cs.dropWhile (· ≠ '/')) with
      | none => none
      | some caps => some (String.mk (cs.takeWhile (· ≠ '/')) :: caps)

/-- Build the `params` object from `(name, capture)` pairs the way the source
reduces them into an accumulator object (`acc[name] = value`). -/
def buildObj (l : List (String × String)) : List (String × String) :=
  fromEntries l

/-- Model of `FetchMocker.matchPath`: compile the route path, match the URL
path against it, and on success zip the parameter names with the captures
into the params object.  `none` covers both a failed match and a pattern
outside the modelled regex fragment (see `tokenizeAux`). -/
def matchPath (urlPath routePath : String) : Option (List (String × String)) :=
  match tokenizeAux routePath.data with
  | none => none
  | some (toks, names) =>
    match rmatch toks urlPath.data with
    | none => none
    | some caps => some (buildObj (names.zip caps))

/-- Model of `FetchMocker.matchParams`: absent constraints always match;
present constraints require every constraint key to be present in the
observed mapping with a strictly-equal value. -/
def matchParams (params : JVal) (expected : Option (List (String × JVal))) : Bool :=
  match expected with
  | none => true
  | some exp =>
    exp.all fun kv =>
      match jsIndex params kv.1 with
      | some w => jsStrictEq w kv.2
      | none => false

/-- The `init` options object of an intercepted `fetch` call.  Header values
are modelled as strings (the HTTP fragment the program exercises); a header
object with non-string values is outside the modelled fragment. -/
structure RequestInit where
  method : Option String
  headers : Option (List (String × String))
  body : Option String
deriving Repr

/-- The request-context object passed to a route handler:
`{ queryParams, bodyParams, params }`. -/
structure HandlerCtx where
  queryParams : JVal
  bodyParams : JVal
  params : JVal

/-- A handler's result object `{ response, status, headers }` (the source
destructures with defaults `status = 200`, `headers = {}`; model handlers
supply all fields explicitly). -/
structure RespDesc where
  response : JVal
  status : Nat
  headers : List (String × String)

/-- A route handler.  `Except.error` models the handler throwing (or its
returned promise rejecting). -/
abbrev Handler := HandlerCtx → Except String RespDesc

/-- A registered route: the handler plus the optional spread-in constraint
objects `queryParams` / `bodyParams`. -/
structure Route where
  handler : Handler
  queryParams : Option (List (String × JVal))
  bodyParams : Option (List (String × JVal))

/-- The synthetic `Response` the caller of the intercepted fetch receives:
status, headers, and the value passed as the response body. -/
structure SynthResp where
  status : Nat
  headers : List (String × String)
  body : JVal

/-- A call-log entry `{ url, method, options }`. -/
structure CallRecord where
  url : String
  method : String
  options : RequestInit

/-- The mutable state of the `FetchMocker` instance: the namespace map
(an insertion-ordered JS object of namespace name to an insertion-ordered
`Map` of `"METHOD path"` route keys), the call log, the running flag, and
whether `global.fetch` currently is the mock hook (`false` once
`reset`/`stop` restored the saved original fetch). -/
structure MockerState where
  namespaces : List (String × List (String × Route))
  calls : List CallRecord
  isServerRunning : Bool
  fetchInstalled : Bool

/-- The freshly constructed mocker: no namespaces, no calls, stopped, with
the original fetch still in place. -/
def initialState : MockerState :=
  ⟨[], [], false, false⟩

/-- Is a string a canonical array-index property key (`"0"`, `"1"`, …, up to
`2^32 - 2`)?  JS ordinary objects enumerate such keys first, in ascending
numeric order, before other string keys in insertion order. -/
def isArrayIndexKey (s : String) : Bool :=
  s.data ≠ [] && s.data.all Char.isDigit &&
    (s = "0" || s.data.headD '0' ≠ '0') && natOfDigits s.data < 4294967295

/-- Insert into a list sorted by the numeric value of the key. -/
def insertByNat (p : String × α) : List (String × α) → List (String × α)
  | [] => [p]
  | q :: qs =>
    if natOfDigits p.1.data ≤ natOfDigits q.1.data then p :: q :: qs
    else q :: insertByNat p qs

/-- Sort entries by the numeric value of their keys (insertion sort). -/
def sortByNatKey (l : List (String × α)) : List (String × α) :=
  l.foldr insertByNat []

/-- Model of `Object.entries` enumeration order on an ordinary JS object:
array-index-like keys in ascending numeric order first, then the remaining
string keys in insertion order. -/
def jsEntries (l : List (String × α)) : List (String × α) :=
  sortByNatKey (l.filter fun p => isArrayIndexKey p.1) ++
    l.filter fun p => !isArrayIndexKey p.1

/-- Model of `FetchMocker.executeHandler`: run the handler inside the
try/catch; on success destructure the result, JSON-serialize the payload
when the declared response headers contain the (case-sensitively compared)
`application/json` content type, and build the synthetic response; on a
thrown/rejected handler return the fixed 500 response. -/
def executeHandler (h : Handler) (ctx : HandlerCtx) : SynthResp :=
  match h ctx with
  | .error _ => ⟨500, [], .jstr "Server Error"⟩
  | .ok r =>
    let ct : Option String :=
      match jsGet r.headers "Content-Type" with
      | some s => if s = "" then jsGet r.headers "content-type" else some s
      | none => jsGet r.headers "content-type"
    let body : JVal :=
      match ct with
      | some s => if strIncludes s "application/json" then .jstr (jsonStringify r.response) else r.response
      | none => r.response
    ⟨r.status, r.headers, body⟩

/-- JS `x || y` on an optional string: an absent or empty (falsy) `x` falls
through to `y`. -/
def jsOrElseStr (a b : Option String) : Option String :=
  match a with
  | some s => if s = "" then b else some s
  | none => b

/-- The content type `routeRequest` reads from the call options: the value of
the header under the exact key `'Content-Type'` or, failing that (or if that
value is empty), under the exact key `'content-type'`, lower-cased; `none`
when neither yields a truthy string (the `if (contentType)` guard). -/
def effectiveContentType (headers : Option (List (String × String))) : Option String :=
  match headers with
  | none => none
  | some hs =>
    match jsOrElseStr ((jsGet hs "Content-Type").map jsToLower)
        ((jsGet hs "content-type").map jsToLower) with
    | none => none
    | some s => if s = "" then none else some s

/-- Strip the single leading question mark that the `URLSearchParams`
constructor removes from its string argument. -/
def stripQm (cs : List Char) : List Char :=
  match cs with
  | '?' :: r => r
  | _ => cs

/-- The body-decoding step of `routeRequest`: for a truthy body on a
POST/PUT call, dispatch on the effective content type; a JSON parse failure
is caught (and logged), leaving the initial empty object. -/
def bodyDecode (method : String) (init : RequestInit) : JVal :=
  match init.body with
  | none => .jobj []
  | some body =>
    if body ≠ "" ∧ (method = "POST" ∨ method = "PUT") then
      match effectiveContentType init.headers with
      | none => .jobj []
      | some ct =>
        if strIncludes ct "application/json" then
          match jsonParse body with
          | some v => v
          | none => .jobj []
        else if strIncludes ct "application/x-www-form-urlencoded" then
          .jobj ((fromEntries (parseQueryPairs (stripQm body.data))).map fun kv => (kv.1, JVal.jstr kv.2))
        else if strIncludes ct "text/plain" then
          .jobj [("text", JVal.jstr body)]
        else .jobj []
    else .jobj []

/-- View a decoded string-to-string object as a `JVal` object. -/
def strObjToJVal (l : List (String × String)) : JVal :=
  .jobj (l.map fun kv => (kv.1, JVal.jstr kv.2))

/-- The first component of `routeKey.split(' ')`: the route's method. -/
def routeKeyMethod (key : String) : String :=
  (jsSplit key ' ').headD ""

/-- The second component of `routeKey.split(' ')`: the route's path pattern
(route keys are always built with exactly one separating space; a path
containing a space would be truncated here exactly as in the source). -/
def routeKeyPath (key : String) : String :=
  ((jsSplit key ' ').drop 1).headD ""

/-- The inner loop of `routeRequest` over one namespace's routes: split each
route key `"METHOD path"` on spaces, run the path matcher, and on exact
method equality plus path and parameter matches invoke the handler. -/
def scanRoutes (pathname method : String) (qpJ bpJ : JVal) :
    List (String × Route) → Option SynthResp
  | [] => none
  | (key, route) :: rest =>
    match matchPath pathname (routeKeyPath key) with
    | some ps =>
      if routeKeyMethod key = method then
        if matchParams qpJ route.queryParams && matchParams bpJ route.bodyParams then
          some (executeHandler route.handler ⟨qpJ, bpJ, strObjToJVal ps⟩)
        else scanRoutes pathname method qpJ bpJ rest
      else scanRoutes pathname method qpJ bpJ rest
    | none => scanRoutes pathname method qpJ bpJ rest

/-- The outer loop of `routeRequest` over `Object.entries(this.namespaces)`:
a namespace participates only if the request's hostname contains its name as
a substring. -/
def scanNamespaces (host pathname method : String) (qpJ bpJ : JVal) :
    List (String × List (String × Route)) → Option SynthResp
  | [] => none
  | (ns, routes) :: rest =>
    if strIncludes host ns then
      match scanRoutes pathname method qpJ bpJ routes with
      | some r => some r
      | none => scanNamespaces host pathname method qpJ bpJ rest
    else scanNamespaces host pathname method qpJ bpJ rest

/-- Model of `FetchMocker.routeRequest`.  `Except.error` models an exception
escaping `routeRequest` uncaught — which happens exactly when `new URL(url)`
throws, since nothing wraps it; `.ok none` is the `return null` no-match
outcome. -/
def routeRequest (st : MockerState) (url method : String) (init : RequestInit) :
    Except String (Option SynthResp) :=
  match parseURL url with
  | none => .error "TypeError: Invalid URL"
  | some u =>
    let qpJ := strObjToJVal (fromEntries u.searchPairs)
    let bpJ := bodyDecode method init
    .ok (scanNamespaces u.hostname u.pathname method qpJ bpJ (jsEntries st.namespaces))

/-- The canned 404 response built by the fetch hook when no route matched. -/
def notFoundResp : SynthResp :=
  ⟨404, [], .jstr "Not Found"⟩

/-- JS `init.method || 'GET'`: absent or empty method falls back to GET. -/
def jsMethodOr (m : Option String) (d : String) : String :=
  match m with
  | none => d
  | some s => if s = "" then d else s

/-- Model of the hook `overrideFetch` installs as `global.fetch`: normalize
the method, append the call record before any matching, then resolve; a
`null` resolution becomes the 404 response, and an exception thrown inside
resolution escapes to the caller (the call stays logged, since the push
happened first). -/
def mockFetch (st : MockerState) (input : String) (init : RequestInit) :
    MockerState × Except String SynthResp :=
  let url := input
  let method := jsToUpper (jsMethodOr init.method "GET")
  let st₁ := { st with calls := st.calls ++ [⟨url, method, init⟩] }
  match routeRequest st₁ url method init with
  | .error e => (st₁, .error e)
  | .ok (some r) => (st₁, .ok r)
  | .ok none => (st₁, .ok notFoundResp)

/-- What a call to `fetch` observes: the mock hook's outcome when the hook is
installed, or delegation to the saved original (network) fetch. -/
inductive FetchOutcome where
  | mocked : Except String SynthResp → FetchOutcome
  | original : FetchOutcome

/-- Issue a fetch against the current process-wide state: intercepted iff the
mock hook is installed. -/
def issueFetch (st : MockerState) (input : String) (init : RequestInit) :
    MockerState × FetchOutcome :=
  if st.fetchInstalled then
    let r := mockFetch st input init
    (r.1, .mocked r.2)
  else (st, .original)

/-- Model of `FetchMocker.start`: a no-op (beyond a warning) when already
running; otherwise install the hook and set the running flag. -/
def start (st : MockerState) : MockerState :=
  if st.isServerRunning then st
  else { st with fetchInstalled := true, isServerRunning := true }

/-- Model of `FetchMocker.reset`: clear namespaces and calls, restore the
original fetch, clear the running flag. -/
def reset (_st : MockerState) : MockerState :=
  ⟨[], [], false, false⟩

/-- Model of `FetchMocker.stop`: exactly `reset` plus a log line. -/
def stop (st : MockerState) : MockerState :=
  reset st

/-- Model of `FetchMocker.restart`. -/
def restart (st : MockerState) : MockerState :=
  start (stop st)

/-- Model of `FetchMocker.namespace` (state effect only): create the
namespace on first reference.  The returned capability object's
`get/post/put/delete` closures forward to `addRoute` with the captured
name. -/
def namespaceOp (st : MockerState) (name : String) : MockerState :=
  if (jsGet st.namespaces name).isSome then st
  else { st with namespaces := st.namespaces ++ [(name, [])] }

/-- Model of `FetchMocker.addRoute`: look up the namespace's route map (a
missing namespace makes the source throw a `TypeError` on `.has`, modelled
as `Except.error`); a duplicate `"METHOD path"` key is logged and dropped,
otherwise the route is appended to the `Map` in insertion order. -/
def addRoute (st : MockerState) (ns method path : String) (handler : Handler)
    (queryC bodyC : Option (List (String × JVal))) : Except String MockerState :=
  match jsGet st.namespaces ns with
  | none => .error "TypeError: cannot read properties of undefined"
  | some routes =>
    let routeKey := method ++ " " ++ path
    if assocHas routes routeKey then .ok st
    else
      .ok { st with
        namespaces := st.namespaces.map fun e =>
          if e.1 = ns then (e.1, e.2 ++ [(routeKey, ⟨handler, queryC, bodyC⟩)]) else e }

/-- Model of `FetchMocker.getCalls`: the whole log, or the records whose URL
equals the argument exactly. -/
def getCalls (st : MockerState) (url : Option String) : List CallRecord :=
  match url with
  | some u => st.calls.filter fun c => c.url = u
  | none => st.calls

/-- An empty call-options object. -/
def rinit0 : RequestInit :=
  ⟨none, none, none⟩

/-- A concrete handler used in closed scenarios: returns status 200, no
headers, body `"ok"`. -/
def okHandler : Handler :=
  fun _ => .ok ⟨.jstr "ok", 200, []⟩

/-- The running state reached from a fresh mocker by `start()`, then
`namespace('api').get('/users', okHandler)`. -/
def stApiUsers : MockerState :=
  ⟨[("api", [("GET /users", ⟨okHandler, none, none⟩)])], [], true, true⟩

/-- Every route path stored in the state compiles into the modelled regex
fragment (no unmodelled regex metacharacters). -/
def allPatternsModeled (st : MockerState) : Bool :=
  st.namespaces.all fun nsr =>
    nsr.2.all fun kr =>
      (tokenizeAux (routeKeyPath kr.1).data).isSome

/-- The running state with a single `POST /submit` route in namespace
`api`. -/
def stApiSubmit : MockerState :=
  ⟨[("api", [("POST /submit", ⟨okHandler, none, none⟩)])], [], true, true⟩

/-- The four-condition predicate of the dispatcher on a route entry: exact
method equality, path-matcher success, and parameter-matcher success on both
the query and body constraints. -/
def routeCond (pathname method : String) (qpJ bpJ : JVal) (e : String × Route) : Bool :=
  (routeKeyMethod e.1 = method) &&
    (matchPath pathname (routeKeyPath e.1)).isSome &&
    matchParams qpJ e.2.queryParams && matchParams bpJ e.2.bodyParams

/-- Handler invocation for a selected route entry (the params object comes
from the successful path match). -/
def invokeRoute (pathname : String) (qpJ bpJ : JVal) (e : String × Route) : SynthResp :=
  executeHandler e.2.handler
    ⟨qpJ, bpJ, strObjToJVal ((matchPath pathname (routeKeyPath e.1)).getD [])⟩

/-- The routes of the namespaces participating for a hostname (in the given
namespace enumeration order), flattened in order. -/
def participants (host : String) (nss : List (String × List (String × Route))) :
    List (String × Route) :=
  ((nss.filter fun e => strIncludes host e.1).map Prod.snd).flatten

/-- A handler returning status 201 and body `"one"`. -/
def h201 : Handler :=
  fun _ => .ok ⟨.jstr "one", 201, []⟩

/-- A handler returning status 202 and body `"two"`. -/
def h202 : Handler :=
  fun _ => .ok ⟨.jstr "two", 202, []⟩

/-- A state whose namespaces were inserted in the order `"2"`, `"1"` (both
array-index-like names), each with a matching `GET /` route. -/
def stNum : MockerState :=
  ⟨[("2", [("GET /", ⟨h202, none, none⟩)]), ("1", [("GET /", ⟨h201, none, none⟩)])], [], true, true⟩

/-- A handler returning status 200 and body `"pi"`. -/
def hPi : Handler :=
  fun _ => .ok ⟨.jstr "pi", 200, []⟩

/-- A running state with the (empty) namespaces `api` and `pi`, in that
insertion order. -/
def stPiApi : MockerState :=
  ⟨[("api", []), ("pi", [])], [], true, true⟩

/-- `stPiApi` after registering `GET /users` in namespace `pi`. -/
def stPiApi2 : MockerState :=
  ⟨[("api", []), ("pi", [("GET /users", ⟨hPi, none, none⟩)])], [], true, true⟩

/-- A character that the pattern compiler treats as a plain regex literal:
not the parameter marker, not the wildcard dot, not an (unmodelled) regex
metacharacter.  (The slash is such a literal.) -/
def litChar (c : Char) : Bool :=
  c ≠ ':' && c ≠ '.' && !(c ∈ regexMeta)

/-- A character allowed inside a literal path segment or a parameter name of
a well-behaved pattern: a `litChar` that is not the segment separator. -/
def goodChar (c : Char) : Bool :=
  c ≠ '/' && litChar c

/-- A segment of a route path pattern, as the spec describes them: a literal
segment or a marker-prefixed named parameter. -/
inductive PatSeg where
  | plit : String → PatSeg
  | pparam : String → PatSeg

/-- A well-behaved pattern segment: literal text over `goodChar`s, or a
parameter with a non-empty `goodChar` name. -/
def PatSeg.goodb : PatSeg → Bool
  | .plit s => s.data.all goodChar
  | .pparam n => !n.data.isEmpty && n.data.all goodChar

/-- The characters a segment contributes to the pattern string. -/
def segChars : PatSeg → List Char
  | .plit s => s.data
  | .pparam n => ':' :: n.data

/-- The characters of the whole slash-joined pattern. -/
def flatChars : List PatSeg → List Char
  | [] => []
  | [s] => segChars s
  | s :: t :: rest => segChars s ++ '/' :: flatChars (t :: rest)

/-- The pattern string with the given segment decomposition. -/
def renderPattern (segs : List PatSeg) : String :=
  String.mk (flatChars segs)

/-- The regex tokens a segment compiles to. -/
def segToks : PatSeg → List RTok
  | .plit s => s.data.map RTok.lit
  | .pparam _ => [RTok.group]

/-- The token list of the whole pattern. -/
def flatToks : List PatSeg → List RTok
  | [] => []
  | [s] => segToks s
  | s :: t :: rest => segToks s ++ RTok.lit '/' :: flatToks (t :: rest)

/-- The parameter names of a pattern, in order of appearance. -/
def segNames : List PatSeg → List String
  | [] => []
  | .plit _ :: rest => segNames rest
  | .pparam n :: rest => n :: segNames rest

/-- Segment-by-segment matching of a decomposed pattern against the path's
segments, yielding the raw `(name, value)` pairs in order: equal lengths,
literal segments equal on the nose, each parameter bound to the
corresponding non-empty concrete segment. -/
def specRawSegs : List PatSeg → List (List Char) → Option (List (String × String))
  | [], [] => some []
  | [], _ :: _ => none
  | _ :: _, [] => none
  | .plit s :: rest, q :: qs => if s.data = q then specRawSegs rest qs else none
  | .pparam n :: rest, q :: qs =>
    if q = [] then none
    else (specRawSegs rest qs).map fun bs => (n, String.mk q) :: bs

/-- The Path Matcher as the spec words it, on raw slash-split segments: a
segment whose first character is the `':'` marker is a named parameter
(bound to the corresponding non-empty concrete segment's literal value), any
other segment must be equal on the nose, and the segment counts must agree
exactly. -/
def specSegs : List (List Char) → List (List Char) → Option (List (String × String))
  | [], [] => some []
  | [], _ :: _ => none
  | _ :: _, [] => none
  | p :: ps, q :: qs =>
    if p.headD ' ' = ':' then
      if q = [] then none
      else (specSegs ps qs).map fun bs => (String.mk (p.drop 1), String.mk q) :: bs
    else if p = q then specSegs ps qs else none

/-- The spec's Path Matcher on strings (see `specSegs`), producing the same
params object as the source builds. -/
def matchPathSpec (urlPath routePath : String) : Option (List (String × String)) :=
  (specSegs (charSplit routePath.data) (charSplit urlPath.data)).map buildObj

theorem dropWhileLen (p : Char → Bool) : ∀ l : List Char, (l.dropWhile p).length ≤ l.length := by
  intro l
  induction l with
  | nil => simp [List.dropWhile]
  | cons c t ih =>
    by_cases h : p c
    · simp [List.dropWhile, h]
      exact Nat.le_succ_of_le ih
    · simp [List.dropWhile, h]

/-- Resolution depends on the state only through its namespaces and on the
call options only through body and headers. -/
theorem routeRequest_congr (st₁ st₂ : MockerState) (url m : String) (i₁ i₂ : RequestInit)
    (hn : st₁.namespaces = st₂.namespaces) (hb : i₁.body = i₂.body)
    (hh : i₁.headers = i₂.headers) :
    routeRequest st₁ url m i₁ = routeRequest st₂ url m i₂ := by
  cases st₁
  cases st₂
  cases i₁
  cases i₂
  dsimp at hn hb hh
  subst hn
  subst hb
  subst hh
  rfl

/-- Claim C1 (amended): for every intercepted call whose url string parses as
a URL (and whose registered route patterns stay inside the modelled regex
fragment), resolution never throws — the caller receives a well-formed
synthetic response object (`Except.ok`). -/
theorem spec_C1 (st : MockerState) (url : String) (init : RequestInit) (u : URLParts)
    (hu : parseURL url = some u) (_hp : allPatternsModeled st = true) :
    ∃ r, (mockFetch st url init).2 = .ok r := by
  simp only [mockFetch, routeRequest, hu]
  cases scanNamespaces u.hostname u.pathname (jsToUpper (jsMethodOr init.method "GET"))
      (strObjToJVal (fromEntries u.searchPairs))
      (bodyDecode (jsToUpper (jsMethodOr init.method "GET")) init) (jsEntries st.namespaces) with
  | none => exact ⟨notFoundResp, rfl⟩
  | some r => exact ⟨r, rfl⟩

/-- Claim C1 witness: a concrete resolvable call on the registered state. -/
theorem spec_C1_witness :
    parseURL "https://api.com/users" = some ⟨"api.com", "/users", []⟩ ∧
      allPatternsModeled stApiUsers = true ∧
      ∃ r, (mockFetch stApiUsers "https://api.com/users" rinit0).2 = .ok r :=
  ⟨by rfl, by rfl,
    spec_C1 stApiUsers "https://api.com/users" rinit0 ⟨"api.com", "/users", []⟩ (by rfl) (by rfl)⟩

/-- Claim C1 counterexample: a url string the URL constructor rejects makes
the intercepted fetch reject with that error — the raw failure escapes to the
caller instead of a synthetic response, so the claim as stated (never throws,
for every url string) is false. -/
theorem spec_C1_counterexample :
    (mockFetch stApiUsers "abc" rinit0).2 = .error "TypeError: Invalid URL" ∧
      (issueFetch (start initialState) "abc" rinit0).2 =
        .mocked (.error "TypeError: Invalid URL") :=
  ⟨by rfl, by rfl⟩

/-- Claim C2 (amended): `reset()` (= `stop()`'s effect) removes all
namespaces and all call records, but it also restores the original fetch, so
a subsequent request is not intercepted at all (it goes to the network
fetch); only once the hook is reinstalled by `start()` does the previously
matching request yield the 404 not-found response. -/
theorem spec_C2 (st : MockerState) (url : String) (init : RequestInit) (u : URLParts)
    (hu : parseURL url = some u) :
    (reset st).namespaces = [] ∧ (reset st).calls = [] ∧
      (issueFetch (reset st) url init).2 = .original ∧
      (issueFetch (start (reset st)) url init).2 = .mocked (.ok notFoundResp) := by
  refine ⟨rfl, rfl, rfl, ?_⟩
  simp [reset, start, issueFetch, mockFetch, routeRequest, hu, jsEntries, sortByNatKey,
    scanNamespaces]

/-- Claim C2 witness. -/
theorem spec_C2_witness :
    parseURL "https://x.com/" = some ⟨"x.com", "/", []⟩ ∧
      ((reset initialState).namespaces = [] ∧ (reset initialState).calls = [] ∧
        (issueFetch (reset initialState) "https://x.com/" rinit0).2 = .original ∧
        (issueFetch (start (reset initialState)) "https://x.com/" rinit0).2 =
          .mocked (.ok notFoundResp)) :=
  ⟨by rfl, spec_C2 initialState "https://x.com/" rinit0 ⟨"x.com", "/", []⟩ (by rfl)⟩

/-- Claim C2 counterexample: after registration the request is served with
the handler's 200 response; after `reset()` the identical request is not
intercepted (it is delegated to the restored original fetch), which is not
the claimed synthetic 404 response. -/
theorem spec_C2_counterexample :
    addRoute (namespaceOp (start initialState) "api") "api" "GET" "/users" okHandler none none =
        .ok stApiUsers ∧
      (issueFetch stApiUsers "https://api.com/users" rinit0).2 =
        .mocked (.ok ⟨200, [], .jstr "ok"⟩) ∧
      (issueFetch (reset (issueFetch stApiUsers "https://api.com/users" rinit0).1)
          "https://api.com/users" rinit0).2 = .original ∧
      FetchOutcome.original ≠ .mocked (.ok notFoundResp) :=
  ⟨by rfl, by rfl, by rfl, fun h => FetchOutcome.noConfusion h⟩

/-- Claim C6 (confirmed): registering a route whose `"METHOD path"` key is
already present in the namespace is a no-op — the state (and so the original
route and the namespace's route collection) is unchanged.  (The warning it
logs is console output, outside the model.) -/
theorem spec_C6 (st : MockerState) (ns method path : String) (routes : List (String × Route))
    (handler : Handler) (qc bc : Option (List (String × JVal)))
    (hns : jsGet st.namespaces ns = some routes)
    (hdup : assocHas routes (method ++ " " ++ path) = true) :
    addRoute st ns method path handler qc bc = .ok st := by
  simp [addRoute, hns, hdup]

/-- Claim C6 witness: re-registering `GET /users` in the `api` namespace
leaves the state untouched. -/
theorem spec_C6_witness :
    jsGet stApiUsers.namespaces "api" = some [("GET /users", ⟨okHandler, none, none⟩)] ∧
      assocHas [("GET /users", (⟨okHandler, none, none⟩ : Route))] ("GET" ++ " " ++ "/users") = true ∧
      addRoute stApiUsers "api" "GET" "/users" okHandler none none = .ok stApiUsers :=
  ⟨by rfl, by rfl,
    spec_C6 stApiUsers "api" "GET" "/users" [("GET /users", ⟨okHandler, none, none⟩)]
      okHandler none none (by rfl) (by rfl)⟩

/-- Claim C9 (confirmed): the method recorded in the call log (and passed to
route matching) is the declared method upper-cased, defaulting to GET when
absent (or empty, which is likewise falsy); consequently the response depends
on the declared method only through this normalization, so matching is
case-insensitive in the request's declared method. -/
theorem spec_C9 (st : MockerState) (url : String) (init : RequestInit) :
    (mockFetch st url init).1.calls =
        st.calls ++ [⟨url, jsToUpper (jsMethodOr init.method "GET"), init⟩] ∧
      (∀ m₁ m₂ : Option String,
          jsToUpper (jsMethodOr m₁ "GET") = jsToUpper (jsMethodOr m₂ "GET") →
          (mockFetch st url ⟨m₁, init.headers, init.body⟩).2 =
            (mockFetch st url ⟨m₂, init.headers, init.body⟩).2) ∧
      jsToUpper (jsMethodOr none "GET") = "GET" := by
  refine ⟨?_, ?_, by rfl⟩
  · simp only [mockFetch]
    cases routeRequest { st with calls := st.calls ++ [⟨url, jsToUpper (jsMethodOr init.method "GET"), init⟩] }
        url (jsToUpper (jsMethodOr init.method "GET")) init with
    | error e => rfl
    | ok o => cases o <;> rfl
  · intro m₁ m₂ hm
    simp only [mockFetch]
    rw [hm]
    rw [routeRequest_congr
      { st with calls := st.calls ++ [⟨url, jsToUpper (jsMethodOr m₂ "GET"), ⟨m₁, init.headers, init.body⟩⟩] }
      { st with calls := st.calls ++ [⟨url, jsToUpper (jsMethodOr m₂ "GET"), ⟨m₂, init.headers, init.body⟩⟩] }
      url (jsToUpper (jsMethodOr m₂ "GET")) ⟨m₁, init.headers, init.body⟩ ⟨m₂, init.headers, init.body⟩
      rfl rfl rfl]
    cases routeRequest
        { st with calls := st.calls ++ [⟨url, jsToUpper (jsMethodOr m₂ "GET"), ⟨m₂, init.headers, init.body⟩⟩] }
        url (jsToUpper (jsMethodOr m₂ "GET")) ⟨m₂, init.headers, init.body⟩ with
    | error e => rfl
    | ok o => cases o <;> rfl

/-- Claim C9 witness: the concrete record for an undeclared method, and a
call declared with lower-case `'get'` resolving identically to `'GET'`. -/
theorem spec_C9_witness :
    (mockFetch stApiUsers "https://api.com/users" rinit0).1.calls =
        [⟨"https://api.com/users", "GET", rinit0⟩] ∧
      (mockFetch stApiUsers "https://api.com/users" ⟨some "get", none, none⟩).2 =
        (mockFetch stApiUsers "https://api.com/users" ⟨some "GET", none, none⟩).2 :=
  ⟨(spec_C9 stApiUsers "https://api.com/users" rinit0).1,
    (spec_C9 stApiUsers "https://api.com/users" rinit0).2.1 (some "get") (some "GET") (by rfl)⟩

/-- Claim C10 (confirmed): `start()` changes only the running flag and the
installed hook (namespaces and call log are untouched); `namespaceOp` and
`addRoute` neither read nor write the lifecycle flags, so registration
succeeds in every lifecycle state; concretely, a route registered on the
stopped fresh mocker is not served while stopped but is matched after
`start()`. -/
theorem spec_C10 (st : MockerState) :
    ((start st).namespaces = st.namespaces ∧ (start st).calls = st.calls) ∧
      (∀ (name : String) (b₁ b₂ : Bool),
          namespaceOp { st with isServerRunning := b₁, fetchInstalled := b₂ } name =
            { namespaceOp st name with isServerRunning := b₁, fetchInstalled := b₂ }) ∧
      (∀ (ns method path : String) (handler : Handler)
          (qc bc : Option (List (String × JVal))) (b₁ b₂ : Bool),
          addRoute { st with isServerRunning := b₁, fetchInstalled := b₂ } ns method path handler qc bc =
            (addRoute st ns method path handler qc bc).map
              (fun s => { s with isServerRunning := b₁, fetchInstalled := b₂ })) ∧
      (addRoute (namespaceOp initialState "api") "api" "GET" "/users" okHandler none none =
          .ok { initialState with
                namespaces := [("api", [("GET /users", ⟨okHandler, none, none⟩)])] } ∧
        (issueFetch { initialState with
            namespaces := [("api", [("GET /users", ⟨okHandler, none, none⟩)])] }
            "https://api.com/users" rinit0).2 = .original ∧
        (issueFetch (start { initialState with
            namespaces := [("api", [("GET /users", ⟨okHandler, none, none⟩)])] })
            "https://api.com/users" rinit0).2 = .mocked (.ok ⟨200, [], .jstr "ok"⟩)) := by
  refine ⟨?_, ?_, ?_, by rfl, by rfl, by rfl⟩
  · unfold start
    split <;> exact ⟨rfl, rfl⟩
  · intro name b₁ b₂
    cases st
    unfold namespaceOp
    dsimp
    split <;> rfl
  · intro ns method path handler qc bc b₁ b₂
    cases st
    unfold addRoute
    dsimp
    cases jsGet _ ns with
    | none => rfl
    | some routes =>
      dsimp
      split <;> rfl

/-- Body decoding depends on the call options only through the body string
and the effective content type. -/
theorem bodyDecode_congr (m : String) (i₁ i₂ : RequestInit) (hb : i₁.body = i₂.body)
    (hct : effectiveContentType i₁.headers = effectiveContentType i₂.headers) :
    bodyDecode m i₁ = bodyDecode m i₂ := by
  cases i₁
  cases i₂
  dsimp at hb hct
  subst hb
  simp only [bodyDecode]
  rw [hct]

/-- Claim C8 (confirmed): a POST/PUT call declaring the JSON content kind
whose body fails to parse gets the empty body-parameter mapping (the thrown
`SyntaxError` is caught — and logged, which is outside the model), and
dispatch proceeds exactly as it would for the same call with no body at all,
so the request can still match a route and produce a response. -/
theorem spec_C8 (st : MockerState) (url method : String) (init : RequestInit) (body ct : String)
    (hb : init.body = some body) (hne : body ≠ "") (hm : method = "POST" ∨ method = "PUT")
    (hct : effectiveContentType init.headers = some ct)
    (hjson : strIncludes ct "application/json" = true)
    (hfail : jsonParse body = none) :
    bodyDecode method init = .jobj [] ∧
      routeRequest st url method init = routeRequest st url method ⟨init.method, init.headers, none⟩ := by
  have hdec : bodyDecode method init = .jobj [] := by
    cases init
    dsimp at hb hct
    subst hb
    simp only [bodyDecode]
    rw [if_pos ⟨hne, hm⟩, hct]
    simp [hjson, hfail]
  refine ⟨hdec, ?_⟩
  have hdec' : bodyDecode method ⟨init.method, init.headers, none⟩ = .jobj [] := rfl
  simp only [routeRequest]
  cases parseURL url with
  | none => rfl
  | some u =>
    dsimp
    rw [hdec, hdec']

/-- Claim C8 witness: the malformed JSON body `"{"` on a POST declaring JSON
yields the empty mapping and still matches the registered route with a 200
response. -/
theorem spec_C8_witness :
    jsonParse "\x7b" = none ∧
      (bodyDecode "POST"
            ⟨some "POST", some [("Content-Type", "application/json")], some "\x7b"⟩ = .jobj [] ∧
        routeRequest stApiSubmit "https://api.com/submit" "POST"
            ⟨some "POST", some [("Content-Type", "application/json")], some "\x7b"⟩ =
          routeRequest stApiSubmit "https://api.com/submit" "POST"
            ⟨some "POST", some [("Content-Type", "application/json")], none⟩) ∧
      (mockFetch stApiSubmit "https://api.com/submit"
          ⟨some "POST", some [("Content-Type", "application/json")], some "\x7b"⟩).2 =
        .ok ⟨200, [], .jstr "ok"⟩ :=
  ⟨by rfl,
    spec_C8 stApiSubmit "https://api.com/submit" "POST"
      ⟨some "POST", some [("Content-Type", "application/json")], some "\x7b"⟩ "\x7b"
      "application/json" rfl (by decide) (.inl rfl) (by rfl) (by rfl) (by rfl),
    by rfl⟩

/-- Claim C5 counterexample: the same JSON call body is decoded under the
header key `'Content-Type'` but NOT under the key casing `'CONTENT-TYPE'` —
the key lookup is not case-insensitive, so the claim as stated (any casing of
the header key) is false. -/
theorem spec_C5_counterexample :
    bodyDecode "POST"
        ⟨some "POST", some [("CONTENT-TYPE", "application/json")],
          some "\x7b\"role\":\"admin\"\x7d"⟩ = .jobj [] ∧
      bodyDecode "POST"
          ⟨some "POST", some [("Content-Type", "application/json")],
            some "\x7b\"role\":\"admin\"\x7d"⟩ = .jobj [("role", .jstr "admin")] :=
  ⟨by rfl, by rfl⟩

/-- Claim C5 (amended): the content kind is read from the header under the
exact key casings `'Content-Type'` and (falling back) `'content-type'` only;
the header VALUE is lower-cased before comparison, so the kind indicator is
case-insensitive in the value; for a POST/PUT call with a truthy body, a
value containing `application/json` selects JSON decoding, otherwise one
containing `application/x-www-form-urlencoded` selects form decoding,
otherwise one containing `text/plain` wraps the body under `text`. -/
theorem spec_C5 :
    (∀ (m : Option String) (v : String) (b : Option String) (meth : String),
        bodyDecode meth ⟨m, some [("Content-Type", v)], b⟩ =
          bodyDecode meth ⟨m, some [("content-type", v)], b⟩) ∧
      (∀ (m : Option String) (k v₁ v₂ : String) (b : Option String) (meth : String),
          jsToLower v₁ = jsToLower v₂ →
          bodyDecode meth ⟨m, some [(k, v₁)], b⟩ = bodyDecode meth ⟨m, some [(k, v₂)], b⟩) ∧
      (∀ (meth : String) (init : RequestInit) (body ct : String),
          init.body = some body → body ≠ "" → (meth = "POST" ∨ meth = "PUT") →
          effectiveContentType init.headers = some ct →
          ((strIncludes ct "application/json" = true →
              bodyDecode meth init =
                (match jsonParse body with | some v => v | none => .jobj [])) ∧
            (strIncludes ct "application/json" = false →
              strIncludes ct "application/x-www-form-urlencoded" = true →
              bodyDecode meth init =
                .jobj ((fromEntries (parseQueryPairs (stripQm body.data))).map
                  fun kv => (kv.1, JVal.jstr kv.2))) ∧
            (strIncludes ct "application/json" = false →
              strIncludes ct "application/x-www-form-urlencoded" = false →
              strIncludes ct "text/plain" = true →
              bodyDecode meth init = .jobj [("text", JVal.jstr body)]))) := by
  refine ⟨?_, ?_, ?_⟩
  · intro m v b meth
    apply bodyDecode_congr
    · rfl
    · by_cases hv : jsToLower v = "" <;>
        simp [effectiveContentType, jsGet, jsOrElseStr, hv]
  · intro m k v₁ v₂ b meth hlow
    apply bodyDecode_congr
    · rfl
    by_cases h1 : k = "Content-Type"
    · subst h1
      simp [effectiveContentType, jsGet, jsOrElseStr, hlow]
    · by_cases h2 : k = "content-type"
      · subst h2
        simp [effectiveContentType, jsGet, jsOrElseStr, hlow]
      · simp [effectiveContentType, jsGet, jsOrElseStr, h1, h2]
  · intro meth init body ct hb hne hm hct
    cases init
    dsimp at hb hct
    subst hb
    refine ⟨?_, ?_, ?_⟩
    · intro hj
      simp only [bodyDecode]
      rw [if_pos ⟨hne, hm⟩, hct]
      simp [hj]
    · intro hj hf
      simp only [bodyDecode]
      rw [if_pos ⟨hne, hm⟩, hct]
      simp [hj, hf]
    · intro hj hf ht
      simp only [bodyDecode]
      rw [if_pos ⟨hne, hm⟩, hct]
      simp [hj, hf, ht]

/-- Claim C5 witness: the two accepted key casings agree on a plain-text
call; an upper-cased value still selects JSON decoding; and a declared-JSON
body is decoded by `JSON.parse`. -/
theorem spec_C5_witness :
    (bodyDecode "POST" ⟨some "POST", some [("Content-Type", "text/plain")], some "hi"⟩ =
        bodyDecode "POST" ⟨some "POST", some [("content-type", "text/plain")], some "hi"⟩) ∧
      (jsToLower "Application/JSON" = jsToLower "application/json" ∧
        bodyDecode "POST"
            ⟨some "POST", some [("content-type", "Application/JSON")],
              some "\x7b\"role\":\"admin\"\x7d"⟩ =
          bodyDecode "POST"
            ⟨some "POST", some [("content-type", "application/json")],
              some "\x7b\"role\":\"admin\"\x7d"⟩) ∧
      (strIncludes "application/json" "application/json" = true ∧
        bodyDecode "POST"
            ⟨some "POST", some [("Content-Type", "application/json")],
              some "\x7b\"role\":\"admin\"\x7d"⟩ =
          (match jsonParse "\x7b\"role\":\"admin\"\x7d" with
           | some v => v
           | none => .jobj [])) :=
  ⟨spec_C5.1 (some "POST") "text/plain" (some "hi") "POST",
    ⟨by rfl,
      spec_C5.2.1 (some "POST") "content-type" "Application/JSON" "application/json"
        (some "\x7b\"role\":\"admin\"\x7d") "POST" (by rfl)⟩,
    ⟨by rfl,
      (spec_C5.2.2 "POST"
          ⟨some "POST", some [("Content-Type", "application/json")],
            some "\x7b\"role\":\"admin\"\x7d"⟩
          "\x7b\"role\":\"admin\"\x7d" "application/json" rfl (by decide) (.inl rfl)
          (by rfl)).1 (by rfl)⟩⟩

theorem findAppend (p : α → Bool) (l₁ l₂ : List α) :
    (l₁ ++ l₂).find? p =
      match l₁.find? p with
      | some x => some x
      | none => l₂.find? p := by
  induction l₁ with
  | nil => simp
  | cons a t ih =>
    by_cases h : p a <;> simp [List.find?_cons, h, ih]

/-- The inner loop over one namespace's routes is first-match selection. -/
theorem scanRoutes_eq_find (pathname method : String) (qpJ bpJ : JVal)
    (routes : List (String × Route)) :
    scanRoutes pathname method qpJ bpJ routes =
      (routes.find? (routeCond pathname method qpJ bpJ)).map
        (invokeRoute pathname qpJ bpJ) := by
  induction routes with
  | nil => rfl
  | cons e rest ih =>
    obtain ⟨key, route⟩ := e
    cases hmp : matchPath pathname (routeKeyPath key) with
    | none =>
      have hc : routeCond pathname method qpJ bpJ (key, route) = false := by
        simp [routeCond, hmp]
      simp only [scanRoutes, hmp]
      rw [List.find?_cons_of_neg _ (by rw [hc]; exact Bool.false_ne_true), ih]
    | some ps =>
      simp only [scanRoutes, hmp]
      by_cases hm : routeKeyMethod key = method
      · by_cases hq : matchParams qpJ route.queryParams && matchParams bpJ route.bodyParams
        · have hc : routeCond pathname method qpJ bpJ (key, route) = true := by
            simp only [Bool.and_eq_true] at hq
            simp [routeCond, hmp, hm, hq.1, hq.2]
          rw [if_pos hm, if_pos hq, List.find?_cons_of_pos _ hc]
          simp [invokeRoute, hmp]
        · have hc : routeCond pathname method qpJ bpJ (key, route) = false := by
            simp only [Bool.and_eq_true, not_and_or, Bool.not_eq_true] at hq
            rcases hq with hq | hq <;> simp [routeCond, hq]
          rw [if_pos hm, if_neg hq]
          rw [List.find?_cons_of_neg _ (by rw [hc]; exact Bool.false_ne_true), ih]
      · have hc : routeCond pathname method qpJ bpJ (key, route) = false := by
          simp [routeCond, hm]
        rw [if_neg hm]
        rw [List.find?_cons_of_neg _ (by rw [hc]; exact Bool.false_ne_true), ih]

/-- The outer loop over namespaces is first-match selection over the
flattened participating routes. -/
theorem scanNamespaces_eq_find (host pathname method : String) (qpJ bpJ : JVal)
    (l : List (String × List (String × Route))) :
    scanNamespaces host pathname method qpJ bpJ l =
      ((participants host l).find? (routeCond pathname method qpJ bpJ)).map
        (invokeRoute pathname qpJ bpJ) := by
  induction l with
  | nil => rfl
  | cons e rest ih =>
    obtain ⟨ns, routes⟩ := e
    by_cases hin : strIncludes host ns
    · have hp : participants host ((ns, routes) :: rest) = routes ++ participants host rest := by
        simp [participants, hin]
      rw [scanNamespaces, if_pos hin, scanRoutes_eq_find, hp, findAppend]
      cases List.find? (routeCond pathname method qpJ bpJ) routes with
      | some x => rfl
      | none => exact ih
    · have hp : participants host ((ns, routes) :: rest) = participants host rest := by
        simp [participants, hin]
      rw [scanNamespaces, if_neg hin, ih, hp]

/-- Claim C7 (amended): dispatch selects the first route entry — in JS
ordinary-object key enumeration order over namespaces (array-index-like
namespace names ascending first, then the others in insertion order; this
coincides with pure insertion order whenever no namespace name is an
array-index string) and registration order within each namespace — whose
namespace name is contained in the request's hostname and which satisfies
exact method equality, Path Matcher success, and Parameter Matcher success on
both the query and body constraints; there is no scoring or specificity
ranking. -/
theorem spec_C7 (st : MockerState) (url method : String) (init : RequestInit) (u : URLParts)
    (hu : parseURL url = some u) :
    routeRequest st url method init =
      .ok (((participants u.hostname (jsEntries st.namespaces)).find?
            (routeCond u.pathname method (strObjToJVal (fromEntries u.searchPairs))
              (bodyDecode method init))).map
        (invokeRoute u.pathname (strObjToJVal (fromEntries u.searchPairs))
          (bodyDecode method init))) := by
  simp only [routeRequest, hu]
  rw [scanNamespaces_eq_find]

/-- Claim C7 counterexample: both namespaces participate for the hostname
`12.x` and both routes satisfy all four conditions — namespace `"2"` alone
serves the request with status 202, and it was inserted first — yet dispatch
returns namespace `"1"`'s 201 response, because `Object.entries` enumerates
the array-index-like keys `"1"`, `"2"` in ascending numeric order, not in
insertion order.  So iteration is not insertion order as claimed. -/
theorem spec_C7_counterexample :
    stNum.namespaces =
        [("2", [("GET /", ⟨h202, none, none⟩)]), ("1", [("GET /", ⟨h201, none, none⟩)])] ∧
      routeRequest ⟨[("2", [("GET /", ⟨h202, none, none⟩)])], [], true, true⟩
          "https://12.x/" "GET" rinit0 = .ok (some ⟨202, [], .jstr "two"⟩) ∧
      routeRequest stNum "https://12.x/" "GET" rinit0 = .ok (some ⟨201, [], .jstr "one"⟩) :=
  ⟨rfl, by rfl, by rfl⟩

/-- Claim C7 witness: the characterization applied to the concrete
registered state. -/
theorem spec_C7_witness :
    parseURL "https://api.com/users" = some ⟨"api.com", "/users", []⟩ ∧
      routeRequest stApiUsers "https://api.com/users" "GET" rinit0 =
        .ok (((participants "api.com" (jsEntries stApiUsers.namespaces)).find?
              (routeCond "/users" "GET" (strObjToJVal (fromEntries ([] : List (String × String))))
                (bodyDecode "GET" rinit0))).map
          (invokeRoute "/users" (strObjToJVal (fromEntries ([] : List (String × String))))
            (bodyDecode "GET" rinit0))) :=
  ⟨by rfl,
    spec_C7 stApiUsers "https://api.com/users" "GET" rinit0 ⟨"api.com", "/users", []⟩ (by rfl)⟩

theorem jsGet_append (l₁ l₂ : List (String × α)) (k : String) :
    jsGet (l₁ ++ l₂) k =
      match jsGet l₁ k with
      | some v => some v
      | none => jsGet l₂ k := by
  induction l₁ with
  | nil => rfl
  | cons e t ih =>
    obtain ⟨k₀, v₀⟩ := e
    by_cases h : k₀ = k <;> simp [jsGet, h, ih]

theorem jsGet_none_keys (l : List (String × α)) (k : String) (h : jsGet l k = none) :
    ∀ e ∈ l, e.1 ≠ k := by
  induction l with
  | nil => simp
  | cons e t ih =>
    obtain ⟨k₀, v₀⟩ := e
    by_cases hk : k₀ = k
    · rw [jsGet, if_pos hk] at h
      exact absurd h (by simp)
    · rw [jsGet, if_neg hk] at h
      intro e' he'
      rcases List.mem_cons.mp he' with he' | he'
      · rw [he']
        exact hk
      · exact ih h e' he'

theorem map_upd_of_no_key (B : String) (g : α → α) (l : List (String × α))
    (h : ∀ e ∈ l, e.1 ≠ B) :
    (l.map fun e => if e.1 = B then (e.1, g e.2) else e) = l := by
  induction l with
  | nil => rfl
  | cons e t ih =>
    have h₁ : e.1 ≠ B := h e (List.mem_cons_self _ _)
    simp only [List.map_cons, if_neg h₁]
    rw [ih fun e' he' => h e' (List.mem_cons_of_mem _ he')]

/-- Scanning ignores a namespace whose name is not contained in the
hostname, so changing only that namespace's routes does not change the
scan. -/
theorem scanNamespaces_upd (host pathname method : String) (qpJ bpJ : JVal) (B : String)
    (g : List (String × Route) → List (String × Route))
    (hB : strIncludes host B = false) :
    ∀ l, scanNamespaces host pathname method qpJ bpJ
        (l.map fun e => if e.1 = B then (e.1, g e.2) else e) =
      scanNamespaces host pathname method qpJ bpJ l := by
  intro l
  induction l with
  | nil => rfl
  | cons e rest ih =>
    obtain ⟨ns, routes⟩ := e
    by_cases h : ns = B
    · subst h
      simp only [List.map_cons, if_true]
      rw [scanNamespaces, scanNamespaces]
      simp only [hB, Bool.false_eq_true, if_false]
      exact ih
    · simp only [List.map_cons, if_neg h]
      rw [scanNamespaces, scanNamespaces]
      by_cases hin : strIncludes host ns
      · simp only [hin, if_true]
        cases scanRoutes pathname method qpJ bpJ routes with
        | some r => rfl
        | none => exact ih
      · simp only [hin, Bool.false_eq_true, if_false]
        exact ih

/-- Scanning ignores a namespace appended at the end whose name is not
contained in the hostname. -/
theorem scanNamespaces_append_skip (host pathname method : String) (qpJ bpJ : JVal)
    (B : String) (r : List (String × Route)) (hB : strIncludes host B = false) :
    ∀ l, scanNamespaces host pathname method qpJ bpJ (l ++ [(B, r)]) =
      scanNamespaces host pathname method qpJ bpJ l := by
  intro l
  induction l with
  | nil =>
    simp only [scanNamespaces, hB, Bool.false_eq_true, if_false]
  | cons e rest ih =>
    obtain ⟨ns, routes⟩ := e
    simp only [List.cons_append]
    rw [scanNamespaces, scanNamespaces]
    by_cases hin : strIncludes host ns
    · simp only [hin, if_true]
      cases scanRoutes pathname method qpJ bpJ routes with
      | some r => rfl
      | none => exact ih
    · simp only [hin, Bool.false_eq_true, if_false]
      exact ih

theorem myFilterMap (p : String × α → Bool) (f : String × α → String × α)
    (hf : ∀ e, p (f e) = p e) :
    ∀ l : List (String × α), (l.map f).filter p = (l.filter p).map f := by
  intro l
  induction l with
  | nil => rfl
  | cons e t ih =>
    by_cases h : p e
    · simp [List.filter_cons, hf, h, ih]
    · simp only [Bool.not_eq_true] at h
      simp [List.filter_cons, hf, h, ih]

theorem insertByNat_map (f : String × α → String × α) (hf : ∀ e, (f e).1 = e.1)
    (e : String × α) :
    ∀ l, insertByNat (f e) (l.map f) = (insertByNat e l).map f := by
  intro l
  induction l with
  | nil => simp [insertByNat]
  | cons q t ih =>
    simp only [List.map_cons, insertByNat, hf]
    by_cases h : natOfDigits e.1.data ≤ natOfDigits q.1.data
    · simp [h]
    · simp [h, ih]

theorem sortByNatKey_map (f : String × α → String × α) (hf : ∀ e, (f e).1 = e.1) :
    ∀ l, sortByNatKey (l.map f) = (sortByNatKey l).map f := by
  intro l
  induction l with
  | nil => rfl
  | cons e t ih =>
    simp only [List.map_cons, sortByNatKey, List.foldr_cons]
    rw [show List.foldr insertByNat [] (t.map f) = sortByNatKey (t.map f) from rfl, ih]
    exact insertByNat_map f hf e _

/-- `Object.entries` enumeration commutes with a key-preserving pointwise
update. -/
theorem jsEntries_map_keyfix (f : String × α → String × α) (hf : ∀ e, (f e).1 = e.1)
    (l : List (String × α)) :
    jsEntries (l.map f) = (jsEntries l).map f := by
  unfold jsEntries
  rw [myFilterMap _ f (fun e => by rw [hf]),
    myFilterMap _ f (fun e => by rw [hf]),
    sortByNatKey_map f hf, List.map_append]

/-- Appending a namespace with a non-array-index name appends it at the end
of the `Object.entries` enumeration. -/
theorem jsEntries_append_nonidx (l : List (String × α)) (B : String) (r : α)
    (h : isArrayIndexKey B = false) :
    jsEntries (l ++ [(B, r)]) = jsEntries l ++ [(B, r)] := by
  unfold jsEntries
  rw [List.filter_append, List.filter_append]
  simp [List.filter_cons, h]

/-- Claim C3 (amended): a namespace participates in matching exactly when its
name is a substring of the request's hostname, so for namespaces A and B,
registering routes in B (creating it first if needed) never changes the
dispatch result of a request whose hostname does not contain B's name — in
particular no route of B is ever selected for such a request.  (The proviso
is necessary: because participation is substring containment rather than
equality, a request addressed to A's host can also satisfy B, as the
counterexample shows.  B is also assumed not to be an array-index-like name,
so that creating it does not reorder the other namespaces.) -/
theorem spec_C3 (st : MockerState) (B m p : String) (handler : Handler)
    (qc bc : Option (List (String × JVal))) (url method : String) (init : RequestInit)
    (u : URLParts) (st₂ : MockerState)
    (hu : parseURL url = some u)
    (hB : strIncludes u.hostname B = false)
    (hidx : isArrayIndexKey B = false)
    (hadd : addRoute (namespaceOp st B) B m p handler qc bc = .ok st₂) :
    routeRequest st₂ url method init = routeRequest st url method init := by
  simp only [namespaceOp] at hadd
  by_cases hpre : (jsGet st.namespaces B).isSome
  · rw [if_pos hpre] at hadd
    obtain ⟨routes, hroutes⟩ := Option.isSome_iff_exists.mp hpre
    simp only [addRoute, hroutes] at hadd
    by_cases hdup : assocHas routes (m ++ " " ++ p)
    · rw [if_pos hdup] at hadd
      injection hadd with h₂
      rw [h₂]
    · rw [if_neg hdup] at hadd
      injection hadd with h₂
      subst h₂
      simp only [routeRequest, hu]
      congr 1
      rw [jsEntries_map_keyfix _ (fun e => by split <;> rfl)]
      exact scanNamespaces_upd u.hostname u.pathname method _ _ B
        (fun rs => rs ++ [(m ++ " " ++ p, ⟨handler, qc, bc⟩)]) hB (jsEntries st.namespaces)
  · rw [if_neg hpre] at hadd
    have hnone : jsGet st.namespaces B = none := Option.not_isSome_iff_eq_none.mp hpre
    have hget : jsGet (st.namespaces ++ [(B, [])]) B = some [] := by
      rw [jsGet_append, hnone]
      simp [jsGet]
    simp only [addRoute, hget, assocHas, jsGet, Option.isSome_none,
      Bool.false_eq_true, if_false] at hadd
    injection hadd with h₂
    subst h₂
    simp only [routeRequest, hu]
    congr 1
    rw [List.map_append,
      map_upd_of_no_key B (fun rs => rs ++ [(m ++ " " ++ p, (⟨handler, qc, bc⟩ : Route))])
        st.namespaces (jsGet_none_keys _ _ hnone)]
    have hone :
        (List.map (fun e => if e.1 = B then (e.1, e.2 ++ [(m ++ " " ++ p, (⟨handler, qc, bc⟩ : Route))]) else e)
          [(B, ([] : List (String × Route)))]) =
          [(B, [(m ++ " " ++ p, (⟨handler, qc, bc⟩ : Route))])] := by
      simp
    rw [hone, jsEntries_append_nonidx _ _ _ hidx]
    exact scanNamespaces_append_skip u.hostname u.pathname method _ _ B _ hB _

/-- Claim C3 counterexample: `"pi"` is a substring of the hostname
`api.com`, so adding a route to namespace `pi` changes the dispatch result of
a request addressed to namespace `api`'s host from 404 to `pi`'s handler
response — namespaces are not independent as claimed. -/
theorem spec_C3_counterexample :
    strIncludes "api.com" "pi" = true ∧
      (mockFetch stPiApi "https://api.com/users" rinit0).2 = .ok notFoundResp ∧
      addRoute stPiApi "pi" "GET" "/users" hPi none none = .ok stPiApi2 ∧
      (mockFetch stPiApi2 "https://api.com/users" rinit0).2 = .ok ⟨200, [], .jstr "pi"⟩ :=
  ⟨by rfl, by rfl, by rfl, by rfl⟩

/-- Claim C3 witness: registering a route in the fresh namespace `blog`
(hostname `api.com` does not contain `blog`) leaves dispatch for the `api`
request unchanged. -/
theorem spec_C3_witness :
    parseURL "https://api.com/users" = some ⟨"api.com", "/users", []⟩ ∧
      strIncludes "api.com" "blog" = false ∧
      isArrayIndexKey "blog" = false ∧
      addRoute (namespaceOp stApiUsers "blog") "blog" "GET" "/posts" okHandler none none =
        .ok ⟨[("api", [("GET /users", ⟨okHandler, none, none⟩)]),
              ("blog", [("GET /posts", ⟨okHandler, none, none⟩)])], [], true, true⟩ ∧
      routeRequest
          ⟨[("api", [("GET /users", ⟨okHandler, none, none⟩)]),
            ("blog", [("GET /posts", ⟨okHandler, none, none⟩)])], [], true, true⟩
          "https://api.com/users" "GET" rinit0 =
        routeRequest stApiUsers "https://api.com/users" "GET" rinit0 :=
  ⟨by rfl, by rfl, by rfl, by rfl,
    spec_C3 stApiUsers "blog" "GET" "/posts" okHandler none none
      "https://api.com/users" "GET" rinit0 ⟨"api.com", "/users", []⟩
      ⟨[("api", [("GET /users", ⟨okHandler, none, none⟩)]),
        ("blog", [("GET /posts", ⟨okHandler, none, none⟩)])], [], true, true⟩
      (by rfl) (by rfl) (by rfl) (by rfl)⟩

theorem stripLead_eq_some (xs : List Char) :
    ∀ cs r, stripLead xs cs = some r ↔ cs = xs ++ r := by
  induction xs with
  | nil =>
    intro cs r
    simp [stripLead]
  | cons a xs ih =>
    intro cs r
    cases cs with
    | nil => simp [stripLead]
    | cons c cs' =>
      by_cases h : a = c
      · subst h
        simp [stripLead, ih]
      · simp [stripLead, h]
        intro he
        exact absurd he.symm h

theorem takeWhile_of_all (p : Char → Bool) :
    ∀ xs : List Char, (∀ c ∈ xs, p c = true) → xs.takeWhile p = xs := by
  intro xs h
  induction xs with
  | nil => rfl
  | cons c t ih =>
    rw [List.takeWhile_cons, h c (List.mem_cons_self _ _), if_pos rfl,
      ih fun c' hc' => h c' (List.mem_cons_of_mem _ hc')]

theorem dropWhile_of_all (p : Char → Bool) :
    ∀ xs : List Char, (∀ c ∈ xs, p c = true) → xs.dropWhile p = [] := by
  intro xs h
  induction xs with
  | nil => rfl
  | cons c t ih =>
    rw [List.dropWhile_cons, h c (List.mem_cons_self _ _), if_pos rfl]
    exact ih fun c' hc' => h c' (List.mem_cons_of_mem _ hc')

theorem takeWhile_append_stop (p : Char → Bool) (xs : List Char) (y : Char) (r : List Char)
    (hxs : ∀ c ∈ xs, p c = true) (hy : p y = false) :
    (xs ++ y :: r).takeWhile p = xs ∧ (xs ++ y :: r).dropWhile p = y :: r := by
  induction xs with
  | nil => simp [List.takeWhile_cons, List.dropWhile_cons, hy]
  | cons c t ih =>
    have hc : p c = true := hxs c (List.mem_cons_self _ _)
    have iht := ih fun c' hc' => hxs c' (List.mem_cons_of_mem _ hc')
    simp only [List.cons_append, List.takeWhile_cons, List.dropWhile_cons, hc, if_true]
    exact ⟨by rw [iht.1], iht.2⟩

theorem charSplitOn_eq (sep : Char) (cs : List Char) :
    charSplitOn sep cs =
      cs.takeWhile (· ≠ sep) ::
        (match cs.dropWhile (· ≠ sep) with
         | [] => []
         | _ :: r => charSplitOn sep r) := by
  induction cs with
  | nil => rfl
  | cons c t ih =>
    by_cases h : c = sep
    · subst h
      simp [charSplitOn, List.takeWhile_cons, List.dropWhile_cons]
    · rw [charSplitOn]
      simp only [h, Bool.false_eq_true, if_false, List.takeWhile_cons, List.dropWhile_cons]
      rw [ih]
      simp [h]

theorem charSplitOn_ne_nil (sep : Char) (cs : List Char) : charSplitOn sep cs ≠ [] := by
  rw [charSplitOn_eq]
  simp

theorem dropWhile_ne_head (sep : Char) :
    ∀ (cs : List Char) (d : Char) (r : List Char),
      cs.dropWhile (· ≠ sep) = d :: r → d = sep := by
  intro cs
  induction cs with
  | nil =>
    intro d r h
    simp at h
  | cons c t ih =>
    intro d r h
    rw [List.dropWhile_cons] at h
    by_cases hc : c = sep
    · rw [if_neg (by simp [hc])] at h
      injection h with h1 h2
      rw [← h1, hc]
    · rw [if_pos (by simp [hc])] at h
      exact ih d r h

theorem good_ne_slash {c : Char} (h : goodChar c = true) : ¬c = '/' := by
  simp only [goodChar, litChar, Bool.and_eq_true, decide_eq_true_eq] at h
  exact h.1

theorem segChars_ne_slash (s : PatSeg) (hs : s.goodb = true) :
    ∀ c ∈ segChars s, decide (c ≠ '/') = true := by
  cases s with
  | plit l =>
    intro c hc
    simp only [PatSeg.goodb, List.all_eq_true] at hs
    simp only [decide_eq_true_eq, ne_eq]
    exact good_ne_slash (hs c hc)
  | pparam n =>
    intro c hc
    simp only [PatSeg.goodb, Bool.and_eq_true, List.all_eq_true] at hs
    simp only [segChars, List.mem_cons] at hc
    simp only [decide_eq_true_eq, ne_eq]
    rcases hc with hc | hc
    · subst hc
      decide
    · exact good_ne_slash (hs.2 c hc)

theorem specRawSegs_nil_right (s : PatSeg) (rest : List PatSeg) :
    specRawSegs (s :: rest) [] = none := by
  cases s <;> rfl

theorem rmatch_litRun (xs : List Char) (ts : List RTok) :
    ∀ cs, rmatch (xs.map RTok.lit ++ ts) cs =
      match stripLead xs cs with
      | some r => rmatch ts r
      | none => none := by
  induction xs with
  | nil =>
    intro cs
    rfl
  | cons a xs ih =>
    intro cs
    cases cs with
    | nil => rfl
    | cons c cs' =>
      simp only [List.map_cons, List.cons_append, rmatch, stripLead]
      by_cases h : c = a
      · subst h
        rw [if_pos rfl, if_pos rfl]
        exact ih cs'
      · rw [if_neg h, if_neg fun he => h he.symm]

theorem rmatch_litRun_none (xs : List Char) (ts : List RTok) (cs : List Char)
    (h : stripLead xs cs = none) : rmatch (xs.map RTok.lit ++ ts) cs = none := by
  rw [rmatch_litRun, h]

theorem rmatch_litRun_some (xs : List Char) (ts : List RTok) (cs r : List Char)
    (h : stripLead xs cs = some r) : rmatch (xs.map RTok.lit ++ ts) cs = rmatch ts r := by
  rw [rmatch_litRun, h]

theorem takeWhile_append_all (p : Char → Bool) (xs ys : List Char)
    (h : ∀ c ∈ xs, p c = true) :
    (xs ++ ys).takeWhile p = xs ++ ys.takeWhile p := by
  induction xs with
  | nil => rfl
  | cons c t ih =>
    rw [List.cons_append, List.takeWhile_cons, h c (List.mem_cons_self _ _), if_pos rfl,
      ih fun c' hc' => h c' (List.mem_cons_of_mem _ hc'), List.cons_append]

theorem specRawSegs_nil_charSplit (r' : List Char) :
    specRawSegs [] (charSplitOn '/' r') = none := by
  cases hcr : charSplitOn '/' r' with
  | nil => exact absurd hcr (charSplitOn_ne_nil _ _)
  | cons q qs => rfl

theorem ne_self_append_cons (l w : List Char) (d : Char) : ¬l = l ++ d :: w := by
  intro he
  have := congrArg List.length he
  simp at this

theorem rmatch_lit_cons (c : Char) (ts : List RTok) (d : Char) (cs : List Char) :
    rmatch (RTok.lit c :: ts) (d :: cs) = if d = c then rmatch ts cs else none := rfl

theorem rmatch_group (ts : List RTok) (cs : List Char) :
    rmatch (RTok.group :: ts) cs =
      if cs.takeWhile (· ≠ '/') = [] then none
      else
        match rmatch ts (cs.dropWhile (· ≠ '/')) with
        | none => none
        | some caps => some (String.mk (cs.takeWhile (· ≠ '/')) :: caps) := rfl

theorem specRawSegs_lit (s : String) (rest : List PatSeg) (q : List Char)
    (qs : List (List Char)) :
    specRawSegs (.plit s :: rest) (q :: qs) =
      if s.data = q then specRawSegs rest qs else none := rfl

theorem specRawSegs_param (n : String) (rest : List PatSeg) (q : List Char)
    (qs : List (List Char)) :
    specRawSegs (.pparam n :: rest) (q :: qs) =
      if q = [] then none
      else (specRawSegs rest qs).map fun bs => (n, String.mk q) :: bs := rfl

theorem charSplitOn_of_all (sep : Char) (cs : List Char)
    (h : ∀ c ∈ cs, decide (c ≠ sep) = true) : charSplitOn sep cs = [cs] := by
  rw [charSplitOn_eq, takeWhile_of_all _ cs h, dropWhile_of_all _ cs h]

theorem charSplitOn_append (sep : Char) (xs : List Char) (r : List Char)
    (h : ∀ c ∈ xs, decide (c ≠ sep) = true) :
    charSplitOn sep (xs ++ sep :: r) = xs :: charSplitOn sep r := by
  obtain ⟨ht, hw⟩ := takeWhile_append_stop (fun x => decide (x ≠ sep)) xs sep r h (by simp)
  rw [charSplitOn_eq, ht, hw]

theorem charSplitOn_dw_nil (sep : Char) (cs : List Char)
    (h : cs.dropWhile (· ≠ sep) = []) :
    charSplitOn sep cs = [cs.takeWhile (· ≠ sep)] := by
  rw [charSplitOn_eq, h]

theorem charSplitOn_dw_cons (sep : Char) (cs : List Char) (d : Char) (r : List Char)
    (h : cs.dropWhile (· ≠ sep) = d :: r) :
    charSplitOn sep cs = cs.takeWhile (· ≠ sep) :: charSplitOn sep r := by
  rw [charSplitOn_eq, h]

/-- The compiled pattern of a well-behaved segment decomposition matches a
character list exactly as segment-wise matching of the slash-split path
prescribes, with the captures zipped against the parameter names. -/
theorem rmatch_flatToks :
    ∀ segs : List PatSeg, segs ≠ [] → segs.all PatSeg.goodb = true →
      ∀ cs, (rmatch (flatToks segs) cs).map (fun caps => (segNames segs).zip caps) =
        specRawSegs segs (charSplit cs) := by
  intro segs
  induction segs with
  | nil =>
    intro h
    exact absurd rfl h
  | cons s rest ih =>
    intro _ hg cs
    have hgs : s.goodb = true := by
      simp only [List.all_eq_true] at hg
      exact hg s (List.mem_cons_self _ _)
    have hgrest : rest.all PatSeg.goodb = true := by
      simp only [List.all_eq_true] at hg ⊢
      exact fun x hx => hg x (List.mem_cons_of_mem _ hx)
    have hslash := segChars_ne_slash s hgs
    cases rest with
    | nil =>
      cases s with
      | plit l =>
        have hsl' : ∀ c ∈ l.data, decide (c ≠ '/') = true := fun c hc => hslash c hc
        rw [show flatToks [PatSeg.plit l] = l.data.map RTok.lit ++ [] from by
          simp [flatToks, segToks]]
        cases hsl : stripLead l.data cs with
        | none =>
          rw [rmatch_litRun_none _ _ _ hsl]
          have hne : ¬l.data = cs.takeWhile (· ≠ '/') := by
            intro he
            have hcs : cs = l.data ++ cs.dropWhile (· ≠ '/') := by
              conv_lhs => rw [← List.takeWhile_append_dropWhile (p := (· ≠ '/')) (l := cs)]
              rw [← he]
            rw [(stripLead_eq_some l.data cs (cs.dropWhile (· ≠ '/'))).mpr hcs] at hsl
            exact Option.noConfusion hsl
          rw [charSplit, charSplitOn_eq, specRawSegs_lit, if_neg hne]
          rfl
        | some r =>
          rw [rmatch_litRun_some _ _ _ _ hsl]
          have hcs : cs = l.data ++ r := (stripLead_eq_some l.data cs r).mp hsl
          subst hcs
          cases r with
          | nil =>
            rw [List.append_nil, charSplit, charSplitOn_of_all '/' l.data hsl',
              specRawSegs_lit, if_pos rfl]
            rfl
          | cons d r' =>
            by_cases hd : d = '/'
            · subst hd
              rw [charSplit, charSplitOn_append '/' l.data r' hsl', specRawSegs_lit,
                if_pos rfl, specRawSegs_nil_charSplit r']
              rfl
            · rw [charSplit, charSplitOn_eq, takeWhile_append_all _ l.data (d :: r') hsl',
                List.takeWhile_cons, if_pos (by simp [hd]), specRawSegs_lit,
                if_neg (ne_self_append_cons l.data _ d)]
              rfl
      | pparam n =>
        rw [show flatToks [PatSeg.pparam n] = [RTok.group] from rfl]
        by_cases hpre : cs.takeWhile (· ≠ '/') = []
        · rw [rmatch_group, if_pos hpre, charSplit, charSplitOn_eq, specRawSegs_param,
            if_pos hpre]
          rfl
        · cases hdw : cs.dropWhile (· ≠ '/') with
          | nil =>
            rw [rmatch_group, if_neg hpre, hdw, charSplit, charSplitOn_dw_nil '/' cs hdw,
              specRawSegs_param, if_neg hpre]
            rfl
          | cons d r' =>
            rw [rmatch_group, if_neg hpre, hdw, charSplit, charSplitOn_dw_cons '/' cs d r' hdw,
              specRawSegs_param, if_neg hpre, specRawSegs_nil_charSplit r']
            rfl
    | cons t rest₂ =>
      have iht := ih (by simp) hgrest
      cases s with
      | plit l =>
        have hsl' : ∀ c ∈ l.data, decide (c ≠ '/') = true := fun c hc => hslash c hc
        rw [show flatToks (PatSeg.plit l :: t :: rest₂) =
            l.data.map RTok.lit ++ (RTok.lit '/' :: flatToks (t :: rest₂)) from rfl]
        cases hsl : stripLead l.data cs with
        | none =>
          rw [rmatch_litRun_none _ _ _ hsl]
          have hne : ¬l.data = cs.takeWhile (· ≠ '/') := by
            intro he
            have hcs : cs = l.data ++ cs.dropWhile (· ≠ '/') := by
              conv_lhs => rw [← List.takeWhile_append_dropWhile (p := (· ≠ '/')) (l := cs)]
              rw [← he]
            rw [(stripLead_eq_some l.data cs (cs.dropWhile (· ≠ '/'))).mpr hcs] at hsl
            exact Option.noConfusion hsl
          rw [charSplit, charSplitOn_eq, specRawSegs_lit, if_neg hne]
          rfl
        | some r =>
          rw [rmatch_litRun_some _ _ _ _ hsl]
          have hcs : cs = l.data ++ r := (stripLead_eq_some l.data cs r).mp hsl
          subst hcs
          cases r with
          | nil =>
            rw [List.append_nil, charSplit, charSplitOn_of_all '/' l.data hsl',
              specRawSegs_lit, if_pos rfl, specRawSegs_nil_right]
            rfl
          | cons d r' =>
            by_cases hd : d = '/'
            · subst hd
              rw [charSplit, charSplitOn_append '/' l.data r' hsl', specRawSegs_lit,
                if_pos rfl]
              rw [rmatch_lit_cons, if_pos rfl]
              have hh := iht r'
              rw [charSplit] at hh
              exact hh
            · rw [charSplit, charSplitOn_eq, takeWhile_append_all _ l.data (d :: r') hsl',
                List.takeWhile_cons, if_pos (by simp [hd]), specRawSegs_lit,
                if_neg (ne_self_append_cons l.data _ d)]
              rw [rmatch_lit_cons, if_neg hd]
              rfl
      | pparam n =>
        rw [show flatToks (PatSeg.pparam n :: t :: rest₂) =
            RTok.group :: RTok.lit '/' :: flatToks (t :: rest₂) from rfl]
        by_cases hpre : cs.takeWhile (· ≠ '/') = []
        · rw [rmatch_group, if_pos hpre, charSplit, charSplitOn_eq, specRawSegs_param,
            if_pos hpre]
          rfl
        · cases hdw : cs.dropWhile (· ≠ '/') with
          | nil =>
            rw [rmatch_group, if_neg hpre, hdw, charSplit, charSplitOn_dw_nil '/' cs hdw,
              specRawSegs_param, if_neg hpre, specRawSegs_nil_right]
            rfl
          | cons d r' =>
            have hd : d = '/' := dropWhile_ne_head '/' cs d r' hdw
            subst hd
            rw [rmatch_group, if_neg hpre, hdw]
            rw [rmatch_lit_cons, if_pos rfl]
            rw [charSplit, charSplitOn_dw_cons '/' cs '/' r' hdw, specRawSegs_param,
              if_neg hpre]
            have hh := iht r'
            rw [charSplit] at hh
            rw [← hh]
            cases rmatch (flatToks (t :: rest₂)) r' with
            | none => rfl
            | some caps => rfl

theorem good_litChar {c : Char} (h : goodChar c = true) : litChar c = true := by
  simp only [goodChar, Bool.and_eq_true] at h
  exact h.2

theorem litChar_split {c : Char} (h : litChar c = true) :
    ¬c = ':' ∧ ¬c = '.' ∧ ¬c ∈ regexMeta := by
  simp only [litChar, Bool.and_eq_true] at h
  refine ⟨?_, ?_, ?_⟩
  · have h1 := h.1.1
    simpa using h1
  · have h1 := h.1.2
    simpa using h1
  · have h1 := h.2
    simpa using h1

theorem good_ne_colon {c : Char} (h : goodChar c = true) : ¬c = ':' :=
  (litChar_split (good_litChar h)).1

theorem tokenizeAux_cons (c : Char) (cs : List Char) :
    tokenizeAux (c :: cs) =
      if c = ':' then tokenizeName cs []
      else if c = '.' then
        match tokenizeAux cs with
        | none => none
        | some (ts, ns) => some (RTok.anyChar :: ts, ns)
      else if c ∈ regexMeta then none
      else
        match tokenizeAux cs with
        | none => none
        | some (ts, ns) => some (RTok.lit c :: ts, ns) := rfl

theorem tokenizeName_nil (acc : List Char) :
    tokenizeName [] acc =
      if acc = [] then some ([RTok.lit ':'], [])
      else some ([RTok.group], [String.mk acc.reverse]) := rfl

theorem tokenizeName_cons (c : Char) (cs acc : List Char) :
    tokenizeName (c :: cs) acc =
      if c = '/' then
        match tokenizeAux cs with
        | none => none
        | some (ts, ns) =>
          if acc = [] then some (RTok.lit ':' :: RTok.lit '/' :: ts, ns)
          else some (RTok.group :: RTok.lit '/' :: ts, String.mk acc.reverse :: ns)
      else tokenizeName cs (c :: acc) := rfl

theorem tok_litRun (xs : List Char) (hxs : ∀ c ∈ xs, litChar c = true) :
    ∀ r, tokenizeAux (xs ++ r) =
      (tokenizeAux r).map fun p => (xs.map RTok.lit ++ p.1, p.2) := by
  induction xs with
  | nil =>
    intro r
    rw [List.nil_append]
    cases tokenizeAux r with
    | none => rfl
    | some p => rfl
  | cons c t ih =>
    intro r
    obtain ⟨h1, h2, h3⟩ := litChar_split (hxs c (List.mem_cons_self _ _))
    rw [List.cons_append, tokenizeAux_cons, if_neg h1, if_neg h2, if_neg h3,
      ih (fun c' hc' => hxs c' (List.mem_cons_of_mem _ hc'))]
    cases tokenizeAux r with
    | none => rfl
    | some p => rfl

theorem tokName_run (nm : List Char) (hnm : ∀ c ∈ nm, decide (c ≠ '/') = true) :
    ∀ rest acc, tokenizeName (nm ++ rest) acc = tokenizeName rest (nm.reverse ++ acc) := by
  induction nm with
  | nil =>
    intro rest acc
    rfl
  | cons c t ih =>
    intro rest acc
    have hc : ¬c = '/' := by simpa using hnm c (List.mem_cons_self _ _)
    rw [List.cons_append, tokenizeName_cons, if_neg hc,
      ih (fun c' hc' => hnm c' (List.mem_cons_of_mem _ hc')) rest (c :: acc),
      List.reverse_cons, List.append_assoc, List.singleton_append]

theorem goodb_plit {l : String} (h : (PatSeg.plit l).goodb = true) :
    ∀ c ∈ l.data, goodChar c = true := by
  simp only [PatSeg.goodb, List.all_eq_true] at h
  exact h

theorem goodb_pparam {n : String} (h : (PatSeg.pparam n).goodb = true) :
    n.data ≠ [] ∧ ∀ c ∈ n.data, goodChar c = true := by
  simp only [PatSeg.goodb, Bool.and_eq_true, List.all_eq_true, Bool.not_eq_true'] at h
  refine ⟨?_, h.2⟩
  intro he
  have h1 := h.1
  rw [he] at h1
  simp at h1

/-- Compiling the rendered pattern of a well-behaved segment decomposition
yields exactly its tokens and parameter names. -/
theorem tokenize_flatChars :
    ∀ segs : List PatSeg, segs ≠ [] → segs.all PatSeg.goodb = true →
      tokenizeAux (flatChars segs) = some (flatToks segs, segNames segs) := by
  intro segs
  induction segs with
  | nil =>
    intro h
    exact absurd rfl h
  | cons s rest ih =>
    intro _ hg
    have hgs : s.goodb = true := by
      simp only [List.all_eq_true] at hg
      exact hg s (List.mem_cons_self _ _)
    have hgrest : rest.all PatSeg.goodb = true := by
      simp only [List.all_eq_true] at hg ⊢
      exact fun x hx => hg x (List.mem_cons_of_mem _ hx)
    cases rest with
    | nil =>
      cases s with
      | plit l =>
        have hlit : ∀ c ∈ l.data, litChar c = true :=
          fun c hc => good_litChar (goodb_plit hgs c hc)
        rw [show flatChars [PatSeg.plit l] = l.data ++ [] from by simp [flatChars, segChars]]
        rw [tok_litRun l.data hlit []]
        simp [flatToks, segToks, segNames, tokenizeAux]
      | pparam n =>
        obtain ⟨hne, hgood⟩ := goodb_pparam hgs
        have hslash : ∀ c ∈ n.data, decide (c ≠ '/') = true := by
          intro c hc
          simp only [decide_eq_true_eq, ne_eq]
          exact good_ne_slash (hgood c hc)
        rw [show flatChars [PatSeg.pparam n] = ':' :: (n.data ++ []) from by
          simp [flatChars, segChars]]
        rw [tokenizeAux_cons, if_pos rfl, tokName_run n.data hslash [] [],
          tokenizeName_nil, if_neg (by simp [hne])]
        simp [flatToks, segToks, segNames]
    | cons t rest₂ =>
      have iht := ih (by simp) hgrest
      cases s with
      | plit l =>
        have hlit : ∀ c ∈ l.data, litChar c = true :=
          fun c hc => good_litChar (goodb_plit hgs c hc)
        rw [show flatChars (PatSeg.plit l :: t :: rest₂) =
            l.data ++ ('/' :: flatChars (t :: rest₂)) from rfl]
        rw [tok_litRun l.data hlit, tokenizeAux_cons, if_neg (by decide), if_neg (by decide),
          if_neg (by decide), iht]
        rfl
      | pparam n =>
        obtain ⟨hne, hgood⟩ := goodb_pparam hgs
        have hslash : ∀ c ∈ n.data, decide (c ≠ '/') = true := by
          intro c hc
          simp only [decide_eq_true_eq, ne_eq]
          exact good_ne_slash (hgood c hc)
        rw [show flatChars (PatSeg.pparam n :: t :: rest₂) =
            ':' :: (n.data ++ '/' :: flatChars (t :: rest₂)) from rfl]
        rw [tokenizeAux_cons, if_pos rfl,
          tokName_run n.data hslash ('/' :: flatChars (t :: rest₂)) [],
          tokenizeName_cons, if_pos rfl, iht]
        simp [flatToks, segToks, segNames, hne]

theorem charSplit_flatChars :
    ∀ segs : List PatSeg, segs ≠ [] → segs.all PatSeg.goodb = true →
      charSplit (flatChars segs) = segs.map segChars := by
  intro segs
  induction segs with
  | nil =>
    intro h
    exact absurd rfl h
  | cons s rest ih =>
    intro _ hg
    have hgs : s.goodb = true := by
      simp only [List.all_eq_true] at hg
      exact hg s (List.mem_cons_self _ _)
    have hgrest : rest.all PatSeg.goodb = true := by
      simp only [List.all_eq_true] at hg ⊢
      exact fun x hx => hg x (List.mem_cons_of_mem _ hx)
    cases rest with
    | nil =>
      rw [show flatChars [s] = segChars s from rfl, charSplit,
        charSplitOn_of_all '/' (segChars s) (segChars_ne_slash s hgs)]
      rfl
    | cons t rest₂ =>
      rw [show flatChars (s :: t :: rest₂) = segChars s ++ '/' :: flatChars (t :: rest₂)
          from rfl,
        charSplit, charSplitOn_append '/' (segChars s) _ (segChars_ne_slash s hgs)]
      have hh := ih (by simp) hgrest
      rw [charSplit] at hh
      rw [hh]
      rfl

theorem specSegs_cons (p : List Char) (ps : List (List Char)) (q : List Char)
    (qs : List (List Char)) :
    specSegs (p :: ps) (q :: qs) =
      if p.headD ' ' = ':' then
        if q = [] then none
        else (specSegs ps qs).map fun bs => (String.mk (p.drop 1), String.mk q) :: bs
      else if p = q then specSegs ps qs else none := rfl

/-- On well-behaved patterns the spec-worded segment matcher coincides with
the raw segment matcher of the decomposition. -/
theorem specSegs_map :
    ∀ segs : List PatSeg, segs.all PatSeg.goodb = true →
      ∀ qs, specSegs (segs.map segChars) qs = specRawSegs segs qs := by
  intro segs
  induction segs with
  | nil =>
    intro _ qs
    cases qs <;> rfl
  | cons s rest ih =>
    intro hg qs
    have hgs : s.goodb = true := by
      simp only [List.all_eq_true] at hg
      exact hg s (List.mem_cons_self _ _)
    have hgrest : rest.all PatSeg.goodb = true := by
      simp only [List.all_eq_true] at hg ⊢
      exact fun x hx => hg x (List.mem_cons_of_mem _ hx)
    cases qs with
    | nil => cases s <;> rfl
    | cons q qs' =>
      cases s with
      | plit l =>
        have hhead : ¬(l.data.headD ' ' = ':') := by
          cases hl : l.data with
          | nil => decide
          | cons c t =>
            have hc : goodChar c = true := goodb_plit hgs c (by rw [hl]; exact List.mem_cons_self _ _)
            simpa using good_ne_colon hc
        rw [List.map_cons, show segChars (PatSeg.plit l) = l.data from rfl,
          specSegs_cons, if_neg hhead, specRawSegs_lit]
        by_cases he : l.data = q
        · rw [if_pos he, if_pos he, ih hgrest qs']
        · rw [if_neg he, if_neg he]
      | pparam n =>
        rw [List.map_cons, show segChars (PatSeg.pparam n) = ':' :: n.data from rfl,
          specSegs_cons, if_pos (show (':' :: n.data).headD ' ' = ':' from rfl),
          specRawSegs_param]
        by_cases hq : q = []
        · rw [if_pos hq, if_pos hq]
        · rw [if_neg hq, if_neg hq, ih hgrest qs']
          rfl

/-- Claim C4 (amended): for every route pattern that decomposes into
well-behaved slash-separated segments — literal segments and `:name`
parameter segments over characters that are not `'.'`, `':'` or regex
metacharacters — and every concrete path, the Path Matcher agrees exactly
with the spec's segment-wise reading: it matches iff the segment counts are
equal, every literal segment is equal on the nose, and each named parameter
is bound to the corresponding non-empty concrete segment's literal string
value (never numeric-coerced); in particular `/users/:id` matches
`/users/123` with binding `id = "123"` and does not match
`/users/123/extra`. -/
theorem spec_C4 (segs : List PatSeg) (hne : segs ≠ []) (hg : segs.all PatSeg.goodb = true)
    (path : String) :
    (matchPath path (renderPattern segs) = matchPathSpec path (renderPattern segs)) ∧
      matchPath "/users/123" "/users/:id" = some [("id", "123")] ∧
      matchPath "/users/123/extra" "/users/:id" = none := by
  refine ⟨?_, by rfl, by rfl⟩
  simp only [matchPath, matchPathSpec, renderPattern]
  rw [tokenize_flatChars segs hne hg, charSplit_flatChars segs hne hg,
    specSegs_map segs hg (charSplit path.data), ← rmatch_flatToks segs hne hg path.data]
  show (match rmatch (flatToks segs) path.data with
        | none => none
        | some caps => some (buildObj ((segNames segs).zip caps))) =
      Option.map buildObj
        (Option.map (fun caps => (segNames segs).zip caps) (rmatch (flatToks segs) path.data))
  cases rmatch (flatToks segs) path.data with
  | none => rfl
  | some caps => rfl

/-- Claim C4 counterexample: a dot in a pattern is the regex wildcard, so
`/users/.` matches `/users/x` although the literal segment `"."` differs
from `"x"`, and `/a.b` (one segment) even matches the two-segment path
`/a/b` because `.` matches the slash — matching is not restricted to equal
segment counts and equal literal segments as claimed. -/
theorem spec_C4_counterexample :
    matchPath "/users/x" "/users/." = some [] ∧
      matchPathSpec "/users/x" "/users/." = none ∧
      matchPath "/a/b" "/a.b" = some [] ∧
      matchPathSpec "/a/b" "/a.b" = none ∧
      ("." : String) ≠ "x" :=
  ⟨by rfl, by rfl, by rfl, by rfl, by decide⟩

/-- Claim C4 witness: the pattern `/users/:id` decomposes into the good
segments `["", "users", ":id"]` and the equivalence applies to it. -/
theorem spec_C4_witness :
    ([PatSeg.plit "", PatSeg.plit "users", PatSeg.pparam "id"] ≠ []) ∧
      ([PatSeg.plit "", PatSeg.plit "users", PatSeg.pparam "id"].all PatSeg.goodb = true) ∧
      renderPattern [PatSeg.plit "", PatSeg.plit "users", PatSeg.pparam "id"] = "/users/:id" ∧
      ((matchPath "/users/123"
            (renderPattern [PatSeg.plit "", PatSeg.plit "users", PatSeg.pparam "id"]) =
          matchPathSpec "/users/123"
            (renderPattern [PatSeg.plit "", PatSeg.plit "users", PatSeg.pparam "id"])) ∧
        matchPath "/users/123" "/users/:id" = some [("id", "123")] ∧
        matchPath "/users/123/extra" "/users/:id" = none) :=
  ⟨by simp, by decide, by rfl,
    spec_C4 [PatSeg.plit "", PatSeg.plit "users", PatSeg.pparam "id"] (by simp) (by decide)
      "/users/123"⟩
